import Mathlib

/-!
# `mlxsw_item.h`: descriptor-driven access to fixed-layout buffers

A shallow embedding of `include/linux/mlx_sx/auto_registers/mlxsw_item.h`.

Conventions of the embedding:

* C unsigned integers are natural numbers; every C operation that can leave the
  range of its type is followed by an explicit `% 2 ^ w` (`unsigned short` is 16 bits,
  `unsigned int` 32 bits, `unsigned long long` 64 bits, `u8`/`u16`/`u32`/`u64` as named).
  Signed `int` intermediates are integers.
* `BUG_ON(..)` / `BUG()` is the result `none`; the bit-array routines, which can also
  divide by zero, return `Except.error` with the fault that ends the call.
* A buffer `char *buf` is the memory reached from the pointer: a byte for every
  offset.  The header performs no bounds check, and neither does the embedding.
* `BITS_PER_LONG` comes from the kernel headers, not from this header: it is an
  argument of every definition that expands `GEN_MASK`.
* Shifts whose count reaches the width of the promoted operand, and `GEN_MASK` with
  `h` outside `0 .. BITS_PER_LONG - 1`, are undefined in C; there the definitions
  compute the mathematical value, and the theorems about field values stay inside
  the defined range (`1 ≤ size.bits ≤ W`, `shift < W`).
-/

namespace MlxswItem

/-! ## Data model -/

/-- Memory reached through a `char *`: the byte stored at each offset. -/
abbrev Buffer := Nat → Fin 256

/-- Conversion of an integer value to `u8` / `char` (reduction modulo 256). -/
def to_u8 (x : Nat) : Fin 256 := ⟨x % 256, Nat.mod_lt x (by decide)⟩

/-- The union `size` of `struct mlxsw_item`.  The scalar accessors read only
`size.bits` (`unsigned char`), the buffer and bit-array accessors read only
`size.bytes` (`unsigned short`); the two views are kept as independent values. -/
structure mlxsw_item_size where
  bits : Nat
  bytes : Nat

/-- Field descriptor, `struct mlxsw_item` (the diagnostic `name` is left out: it is
only printed). -/
structure mlxsw_item where
  offset : Nat
  step : Nat
  in_step_offset : Nat
  shift : Nat
  element_size : Nat
  no_real_shift : Bool
  size : mlxsw_item_size

/-- The values of the descriptor lie in the ranges of their C types. -/
def mlxsw_item.in_range (item : mlxsw_item) : Prop :=
  item.offset < 2 ^ 16 ∧ item.step < 2 ^ 16 ∧ item.in_step_offset < 2 ^ 16 ∧
  item.shift < 2 ^ 8 ∧ item.element_size < 2 ^ 8 ∧
  item.size.bits < 2 ^ 8 ∧ item.size.bytes < 2 ^ 16

instance (item : mlxsw_item) : Decidable item.in_range := by
  unfold mlxsw_item.in_range; infer_instance

/-! ## Kernel primitives used by the header -/

/-- Number of bits of `unsigned long long` (kernel constant; the comment above
`GEN_MASK_ULL` calls its result a 64bit vector). -/
def BITS_PER_LONG_LONG : Nat := 64

/-- Modelled from the spec: the kernel constant `BITS_PER_BYTE`, which the spec
writes as the literal 8 (`index mod (8 / element_size_bits)`). -/
def BITS_PER_BYTE : Nat := 8

/-- The object of `n` bytes stored at byte address `addr`, in memory order. -/
def read_obj (buf : Buffer) : Nat → Nat → List (Fin 256)
  | _, 0 => []
  | addr, n + 1 => buf addr :: read_obj buf (addr + 1) n

/-- Store the bytes `raw`, in memory order, at byte address `addr`. -/
def write_obj (buf : Buffer) (addr : Nat) (raw : List (Fin 256)) : Buffer :=
  fun k => if addr ≤ k then raw.getD (k - addr) (buf k) else buf k

/-- Modelled from the spec: the kernel conversions `be16_to_cpu`, `be32_to_cpu`,
`be64_to_cpu` (from big-endian byte order to the numeric value), on an object given
by its bytes in memory order: the first byte is the most significant. -/
def be_to_cpu : List (Fin 256) → Nat
  | [] => 0
  | b :: rest => b.val * 256 ^ rest.length + be_to_cpu rest

/-- Modelled from the spec: the kernel conversions `cpu_to_be16`, `cpu_to_be32`,
`cpu_to_be64`: the object of `n` bytes holding `x` in big-endian order (most
significant byte first). -/
def cpu_to_be : Nat → Nat → List (Fin 256)
  | 0, _ => []
  | n + 1, x => to_u8 (x >>> (8 * n)) :: cpu_to_be n x

/-- Kernel helper `be16_to_cpu` on the two bytes of a `__be16`. -/
def be16_to_cpu (raw : List (Fin 256)) : Nat := be_to_cpu raw

/-- Kernel helper `cpu_to_be16`. -/
def cpu_to_be16 (x : Nat) : List (Fin 256) := cpu_to_be 2 x

/-- Kernel helper `be32_to_cpu` on the four bytes of a `__be32`. -/
def be32_to_cpu (raw : List (Fin 256)) : Nat := be_to_cpu raw

/-- Kernel helper `cpu_to_be32`. -/
def cpu_to_be32 (x : Nat) : List (Fin 256) := cpu_to_be 4 x

/-- Kernel helper `be64_to_cpu` on the eight bytes of a `__be64`. -/
def be64_to_cpu (raw : List (Fin 256)) : Nat := be_to_cpu raw

/-- Kernel helper `cpu_to_be64`. -/
def cpu_to_be64 (x : Nat) : List (Fin 256) := cpu_to_be 8 x

/-- Library call `memcpy(dst + d, src + s, n)` between two distinct objects. -/
def memcpy (dst : Buffer) (d : Nat) (src : Buffer) (s n : Nat) : Buffer :=
  fun k => if d ≤ k ∧ k < d + n then src (s + (k - d)) else dst k

/-! ## Mask generation -/

/-- Macro `GEN_MASK(h, l)`:
`((~0UL) - (1UL << (l)) + 1) & (~0UL >> (BITS_PER_LONG - 1 - (h)))`,
in `unsigned long` arithmetic of `BITS_PER_LONG` bits. -/
def GEN_MASK (BITS_PER_LONG : Nat) (h : Int) (l : Nat) : Nat :=
  ((((2 ^ BITS_PER_LONG - 1) + 2 ^ BITS_PER_LONG - (1 <<< l) % 2 ^ BITS_PER_LONG)
      % 2 ^ BITS_PER_LONG + 1) % 2 ^ BITS_PER_LONG)
    &&& ((2 ^ BITS_PER_LONG - 1) >>> ((BITS_PER_LONG : Int) - 1 - h).toNat)

/-- Macro `GEN_MASK_ULL(h, l)`:
`((~0ULL) - (1ULL << (l)) + 1) & (~0ULL >> (BITS_PER_LONG_LONG - 1 - (h)))`. -/
def GEN_MASK_ULL (h : Int) (l : Nat) : Nat :=
  ((((2 ^ BITS_PER_LONG_LONG - 1) + 2 ^ BITS_PER_LONG_LONG
        - (1 <<< l) % 2 ^ BITS_PER_LONG_LONG)
      % 2 ^ BITS_PER_LONG_LONG + 1) % 2 ^ BITS_PER_LONG_LONG)
    &&& ((2 ^ BITS_PER_LONG_LONG - 1) >>> ((BITS_PER_LONG_LONG : Int) - 1 - h).toNat)

/-! ## Offset resolution -/

/-- Function `__mlxsw_item_offset(item, index, typesize)`: the element offset, in units of
`typesize`, or `none` when `BUG_ON` / `BUG()` fires. -/
def __mlxsw_item_offset (item : mlxsw_item) (index typesize : Nat) : Option Nat :=
  if index ≠ 0 ∧ item.step = 0 then none
  else if item.offset % typesize ≠ 0 ∨
      item.step % typesize ≠ 0 ∨
      item.in_step_offset % typesize ≠ 0 then none
  else
    some ((((item.offset + (item.step * index) % 2 ^ 32) % 2 ^ 32
              + item.in_step_offset) % 2 ^ 32 / typesize) % 2 ^ 32)

/-! ## Scalar accessors -/

/-- Function `__mlxsw_item_get8`. -/
def __mlxsw_item_get8 (BITS_PER_LONG : Nat) (buf : Buffer) (item : mlxsw_item)
    (index : Nat) : Option Nat :=
  match __mlxsw_item_offset item index 1 with
  | none => none
  | some offset =>
    let tmp := (buf offset).val
    let tmp := (tmp >>> item.shift) % 2 ^ 8
    let tmp := (tmp &&& GEN_MASK BITS_PER_LONG ((item.size.bits : Int) - 1) 0) % 2 ^ 8
    let tmp := if item.no_real_shift then (tmp <<< item.shift) % 2 ^ 8 else tmp
    some tmp

/-- Function `__mlxsw_item_set8`. -/
def __mlxsw_item_set8 (BITS_PER_LONG : Nat) (buf : Buffer) (item : mlxsw_item)
    (index val : Nat) : Option Buffer :=
  match __mlxsw_item_offset item index 1 with
  | none => none
  | some offset =>
    let mask := ((GEN_MASK BITS_PER_LONG ((item.size.bits : Int) - 1) 0 <<< item.shift)
                  % 2 ^ BITS_PER_LONG) % 2 ^ 8
    let val := if !item.no_real_shift then (val <<< item.shift) % 2 ^ 8 else val
    let val := val &&& mask
    let tmp := (buf offset).val
    let tmp := tmp &&& (2 ^ 8 - 1 - mask)
    let tmp := tmp ||| val
    some (fun k => if k = offset then to_u8 tmp else buf k)

/-- Function `__mlxsw_item_get16`. -/
def __mlxsw_item_get16 (BITS_PER_LONG : Nat) (buf : Buffer) (item : mlxsw_item)
    (index : Nat) : Option Nat :=
  match __mlxsw_item_offset item index 2 with
  | none => none
  | some offset =>
    let tmp := be16_to_cpu (read_obj buf (offset * 2) 2)
    let tmp := (tmp >>> item.shift) % 2 ^ 16
    let tmp := (tmp &&& GEN_MASK BITS_PER_LONG ((item.size.bits : Int) - 1) 0) % 2 ^ 16
    let tmp := if item.no_real_shift then (tmp <<< item.shift) % 2 ^ 16 else tmp
    some tmp

/-- Function `__mlxsw_item_set16`. -/
def __mlxsw_item_set16 (BITS_PER_LONG : Nat) (buf : Buffer) (item : mlxsw_item)
    (index val : Nat) : Option Buffer :=
  match __mlxsw_item_offset item index 2 with
  | none => none
  | some offset =>
    let mask := ((GEN_MASK BITS_PER_LONG ((item.size.bits : Int) - 1) 0 <<< item.shift)
                  % 2 ^ BITS_PER_LONG) % 2 ^ 16
    let val := if !item.no_real_shift then (val <<< item.shift) % 2 ^ 16 else val
    let val := val &&& mask
    let tmp := be16_to_cpu (read_obj buf (offset * 2) 2)
    let tmp := tmp &&& (2 ^ 16 - 1 - mask)
    let tmp := tmp ||| val
    some (write_obj buf (offset * 2) (cpu_to_be16 tmp))

/-- Function `__mlxsw_item_get32`. -/
def __mlxsw_item_get32 (BITS_PER_LONG : Nat) (buf : Buffer) (item : mlxsw_item)
    (index : Nat) : Option Nat :=
  match __mlxsw_item_offset item index 4 with
  | none => none
  | some offset =>
    let tmp := be32_to_cpu (read_obj buf (offset * 4) 4)
    let tmp := (tmp >>> item.shift) % 2 ^ 32
    let tmp := (tmp &&& GEN_MASK BITS_PER_LONG ((item.size.bits : Int) - 1) 0) % 2 ^ 32
    let tmp := if item.no_real_shift then (tmp <<< item.shift) % 2 ^ 32 else tmp
    some tmp

/-- Function `__mlxsw_item_set32`. -/
def __mlxsw_item_set32 (BITS_PER_LONG : Nat) (buf : Buffer) (item : mlxsw_item)
    (index val : Nat) : Option Buffer :=
  match __mlxsw_item_offset item index 4 with
  | none => none
  | some offset =>
    let mask := ((GEN_MASK BITS_PER_LONG ((item.size.bits : Int) - 1) 0 <<< item.shift)
                  % 2 ^ BITS_PER_LONG) % 2 ^ 32
    let val := if !item.no_real_shift then (val <<< item.shift) % 2 ^ 32 else val
    let val := val &&& mask
    let tmp := be32_to_cpu (read_obj buf (offset * 4) 4)
    let tmp := tmp &&& (2 ^ 32 - 1 - mask)
    let tmp := tmp ||| val
    some (write_obj buf (offset * 4) (cpu_to_be32 tmp))

/-- Function `__mlxsw_item_get64`. -/
def __mlxsw_item_get64 (buf : Buffer) (item : mlxsw_item) (index : Nat) : Option Nat :=
  match __mlxsw_item_offset item index 8 with
  | none => none
  | some offset =>
    let tmp := be64_to_cpu (read_obj buf (offset * 8) 8)
    let tmp := (tmp >>> item.shift) % 2 ^ 64
    let tmp := (tmp &&& GEN_MASK_ULL ((item.size.bits : Int) - 1) 0) % 2 ^ 64
    let tmp := if item.no_real_shift then (tmp <<< item.shift) % 2 ^ 64 else tmp
    some tmp

/-- Function `__mlxsw_item_set64`. -/
def __mlxsw_item_set64 (buf : Buffer) (item : mlxsw_item) (index val : Nat) :
    Option Buffer :=
  match __mlxsw_item_offset item index 8 with
  | none => none
  | some offset =>
    let mask := (GEN_MASK_ULL ((item.size.bits : Int) - 1) 0 <<< item.shift) % 2 ^ 64
    let val := if !item.no_real_shift then (val <<< item.shift) % 2 ^ 64 else val
    let val := val &&& mask
    let tmp := be64_to_cpu (read_obj buf (offset * 8) 8)
    let tmp := tmp &&& (2 ^ 64 - 1 - mask)
    let tmp := tmp ||| val
    some (write_obj buf (offset * 8) (cpu_to_be64 tmp))

/-! ## Opaque byte ranges -/

/-- Function `__mlxsw_item_memcpy_from`: the destination after the copy. -/
def __mlxsw_item_memcpy_from (buf dst : Buffer) (item : mlxsw_item) (index : Nat) :
    Option Buffer :=
  match __mlxsw_item_offset item index 1 with
  | none => none
  | some offset => some (memcpy dst 0 buf offset item.size.bytes)

/-- Function `__mlxsw_item_memcpy_to`: the buffer after the copy. -/
def __mlxsw_item_memcpy_to (buf src : Buffer) (item : mlxsw_item) (index : Nat) :
    Option Buffer :=
  match __mlxsw_item_offset item index 1 with
  | none => none
  | some offset => some (memcpy buf offset src 0 item.size.bytes)

/-- Function `__mlxsw_item_data`: the pointer `&buf[offset]`, as the buffer it points into
together with the position inside it. -/
def __mlxsw_item_data (buf : Buffer) (item : mlxsw_item) (index : Nat) :
    Option (Buffer × Nat) :=
  match __mlxsw_item_offset item index 1 with
  | none => none
  | some offset => some (buf, offset)

/-! ## Bit arrays -/

/-- The ways in which a bit-array access ends without a result: `bug` is `BUG_ON` /
`BUG()`; `div_by_zero` is the evaluation of `BITS_PER_BYTE % item->element_size` with
`element_size = 0`, a division by zero, which C leaves undefined. -/
inductive Fault where
  | bug
  | div_by_zero

/-- Function `__mlxsw_item_bit_array_offset`: the returned byte offset paired with the value
stored in `*shift`, or the fault that ends the call.  The condition
`offset % sizeof(u32) != 0 || BITS_PER_BYTE % element_size != 0` is evaluated left to
right: a misaligned offset reaches `BUG()` without dividing; with an aligned offset
and `element_size = 0` (which `BUG_ON` lets through at index 0) the remainder divides
by zero. -/
def __mlxsw_item_bit_array_offset (item : mlxsw_item) (index : Nat) :
    Except Fault (Nat × Nat) :=
  if index ≠ 0 ∧ item.element_size = 0 then Except.error Fault.bug
  else if item.offset % 4 ≠ 0 then Except.error Fault.bug
  else if item.element_size = 0 then Except.error Fault.div_by_zero
  else if BITS_PER_BYTE % item.element_size ≠ 0 then Except.error Fault.bug
  else
    let max_index : Nat :=
      ((((item.size.bytes <<< 3 : Nat) : Int) / (item.element_size : Int) - 1) % 2 ^ 16).toNat
    let be_index : Nat := (((max_index : Int) - (index : Int)) % 2 ^ 16).toNat
    let offset : Nat := ((be_index * item.element_size) >>> 3) % 2 ^ 16
    let in_byte_index : Nat := (index % (BITS_PER_BYTE / item.element_size)) % 2 ^ 8
    let shift : Nat := (in_byte_index * item.element_size) % 2 ^ 8
    Except.ok ((item.offset + offset) % 2 ^ 16, shift)

/-- Function `__mlxsw_item_bit_array_get`. -/
def __mlxsw_item_bit_array_get (BITS_PER_LONG : Nat) (buf : Buffer) (item : mlxsw_item)
    (index : Nat) : Except Fault Nat :=
  match __mlxsw_item_bit_array_offset item index with
  | Except.error e => Except.error e
  | Except.ok (offset, shift) =>
    let tmp := (buf offset).val
    let tmp := (tmp >>> shift) % 2 ^ 8
    let tmp := (tmp &&& GEN_MASK BITS_PER_LONG ((item.element_size : Int) - 1) 0) % 2 ^ 8
    Except.ok tmp

/-- Function `__mlxsw_item_bit_array_set`. -/
def __mlxsw_item_bit_array_set (BITS_PER_LONG : Nat) (buf : Buffer) (item : mlxsw_item)
    (index val : Nat) : Except Fault Buffer :=
  match __mlxsw_item_bit_array_offset item index with
  | Except.error e => Except.error e
  | Except.ok (offset, shift) =>
    let mask := ((GEN_MASK BITS_PER_LONG ((item.element_size : Int) - 1) 0 <<< shift)
                  % 2 ^ BITS_PER_LONG) % 2 ^ 8
    let val := (val <<< shift) % 2 ^ 8
    let val := val &&& mask
    let tmp := (buf offset).val
    let tmp := tmp &&& (2 ^ 8 - 1 - mask)
    let tmp := tmp ||| val
    Except.ok (fun k => if k = offset then to_u8 tmp else buf k)

/-! ## Vocabulary of the statements -/

/-- The condition under which `__mlxsw_item_offset` reaches `BUG_ON` / `BUG()`:
a nonzero index without a stride, or a component that is not a multiple of the
access size. -/
def offset_violation (item : mlxsw_item) (index typesize : Nat) : Prop :=
  (index ≠ 0 ∧ item.step = 0) ∨ item.offset % typesize ≠ 0 ∨
    item.step % typesize ≠ 0 ∨ item.in_step_offset % typesize ≠ 0

instance (item : mlxsw_item) (index typesize : Nat) :
    Decidable (offset_violation item index typesize) := by
  unfold offset_violation; infer_instance

/-- Byte position of the storage unit of `item` at repetition `index`, over the
unbounded naturals. -/
def byte_pos (item : mlxsw_item) (index : Nat) : Nat :=
  item.offset + item.step * index + item.in_step_offset

/-- A descriptor and index that a scalar access of `W` bits accepts: values in the
ranges of their C types, no violation of the offset checks for the access size
`W / 8`, a field of 1 to `W` bits and a shift below `W` (the range in which C
defines the shifts of the accessors). -/
def valid_scalar (W : Nat) (item : mlxsw_item) (index : Nat) : Prop :=
  item.in_range ∧ index < 2 ^ 16 ∧ ¬ offset_violation item index (W / 8) ∧
    1 ≤ item.size.bits ∧ item.size.bits ≤ W ∧ item.shift < W

instance (W : Nat) (item : mlxsw_item) (index : Nat) :
    Decidable (valid_scalar W item index) := by
  unfold valid_scalar; infer_instance

/-! ## Common shape of the four accessor pairs

The four `get` bodies and the four `set` bodies differ only in the access size.
The definitions below are that common body, with the access size `n` in bytes as an
argument; they are used in proofs only, through the lemmas `get8_eq` .. `set64_eq`
that identify each accessor with its instance. -/

/-- Arithmetic of a `get` between the load and the return, on a unit of `W` bits. -/
def word_get (W s : Nat) (nrs : Bool) (m U : Nat) : Nat :=
  let tmp := (U >>> s) % 2 ^ W
  let tmp := (tmp &&& m) % 2 ^ W
  if nrs then (tmp <<< s) % 2 ^ W else tmp

/-- Arithmetic of a `set` between the load and the store, on a unit of `W` bits. -/
def word_set (W s : Nat) (nrs : Bool) (mask U val : Nat) : Nat :=
  let val := if !nrs then (val <<< s) % 2 ^ W else val
  let val := val &&& mask
  let tmp := U &&& (2 ^ W - 1 - mask)
  tmp ||| val

/-- The positioned mask `(2 ^ b - 1) << s` truncated to `W` bits. -/
def field_mask (W s b : Nat) : Nat := ((2 ^ b - 1) <<< s) % 2 ^ W

/-- Body of a `get` of `n` bytes with field mask `m`. -/
def scalar_get (n m : Nat) (buf : Buffer) (item : mlxsw_item) (index : Nat) : Option Nat :=
  (__mlxsw_item_offset item index n).map fun off =>
    word_get (8 * n) item.shift item.no_real_shift m (be_to_cpu (read_obj buf (off * n) n))

/-- Body of a `set` of `n` bytes with positioned mask `mask`. -/
def scalar_set (n mask : Nat) (buf : Buffer) (item : mlxsw_item) (index val : Nat) :
    Option Buffer :=
  (__mlxsw_item_offset item index n).map fun off =>
    write_obj buf (off * n) (cpu_to_be n
      (word_set (8 * n) item.shift item.no_real_shift mask
        (be_to_cpu (read_obj buf (off * n) n)) val))

/-- The value a valid `get` of `n` bytes returns, as a function of the buffer. -/
def get_value (n : Nat) (buf : Buffer) (item : mlxsw_item) (index : Nat) : Nat :=
  word_get (8 * n) item.shift item.no_real_shift (2 ^ item.size.bits - 1)
    (be_to_cpu (read_obj buf (byte_pos item index) n))

/-- The buffer a valid `set` of `n` bytes produces. -/
def set_buffer (n : Nat) (buf : Buffer) (item : mlxsw_item) (index val : Nat) : Buffer :=
  write_obj buf (byte_pos item index) (cpu_to_be n
    (word_set (8 * n) item.shift item.no_real_shift (field_mask (8 * n) item.shift item.size.bits)
      (be_to_cpu (read_obj buf (byte_pos item index) n)) val))

/-- The descriptor and index do not pass the checks of
`__mlxsw_item_bit_array_offset`: the routine returns a result exactly when this
condition is false.  An `element_size` of 0 is included (`8 % 0` is `8` here). -/
def bit_array_violation (item : mlxsw_item) (index : Nat) : Prop :=
  (index ≠ 0 ∧ item.element_size = 0) ∨ item.offset % 4 ≠ 0 ∨
    8 % item.element_size ≠ 0

instance (item : mlxsw_item) (index : Nat) : Decidable (bit_array_violation item index) := by
  unfold bit_array_violation; infer_instance

/-- The buffer a bit-array `set` produces when the offset routine returns the byte
offset and shift `p`. -/
def bit_set_buffer (buf : Buffer) (item : mlxsw_item) (p : Nat × Nat) (val : Nat) : Buffer :=
  fun k => if k = p.1 then
    to_u8 (word_set 8 p.2 false (field_mask 8 p.2 item.element_size) (buf p.1).val val)
  else buf k

/-! ## Lemmas: bits of words -/

theorem testBit_field_mask (W s b j : Nat) :
    (field_mask W s b).testBit j
      = (decide (j < W) && (decide (s ≤ j) && decide (j - s < b))) := by
  simp [field_mask, Nat.testBit_mod_two_pow, Nat.testBit_shiftLeft,
    Nat.testBit_two_pow_sub_one]

theorem testBit_of_lt_two_pow_le {U W j : Nat} (hU : U < 2 ^ W) (hj : W ≤ j) :
    U.testBit j = false :=
  Nat.testBit_lt_two_pow (lt_of_lt_of_le hU (Nat.pow_le_pow_right (by decide) hj))

theorem testBit_merge (W U M x j : Nat) (hU : U < 2 ^ W) (hM : M < 2 ^ W) :
    ((U &&& (2 ^ W - 1 - M)) ||| (x &&& M)).testBit j
      = if M.testBit j then x.testBit j else U.testBit j := by
  have e : 2 ^ W - 1 - M = 2 ^ W - (M + 1) := by omega
  rw [e, Nat.testBit_or, Nat.testBit_and, Nat.testBit_and, Nat.testBit_two_pow_sub_succ hM]
  by_cases hj : j < W
  · cases hm : M.testBit j <;> simp [hj]
  · have h1 := testBit_of_lt_two_pow_le hU (Nat.le_of_not_lt hj)
    have h2 := testBit_of_lt_two_pow_le hM (Nat.le_of_not_lt hj)
    simp [h1, h2]

theorem field_mask_lt (W s b : Nat) : field_mask W s b < 2 ^ W :=
  Nat.mod_lt _ (Nat.pos_pow_of_pos _ (by decide))

theorem word_set_lt (W s : Nat) (nrs : Bool) (M U v : Nat) (hU : U < 2 ^ W) (hM : M < 2 ^ W) :
    word_set W s nrs M U v < 2 ^ W := by
  unfold word_set
  apply Nat.or_lt_two_pow
  · exact lt_of_le_of_lt Nat.and_le_left hU
  · exact lt_of_le_of_lt Nat.and_le_right hM

theorem word_round_trip (W s b U v : Nat) (hU : U < 2 ^ W) :
    word_get W s false (2 ^ b - 1) (word_set W s false (field_mask W s b) U v)
      = v % 2 ^ (min b (W - s)) := by
  apply Nat.eq_of_testBit_eq
  intro j
  simp only [word_get, word_set, Bool.not_false, if_true, Bool.false_eq_true, if_false]
  rw [Nat.testBit_mod_two_pow, Nat.testBit_and, Nat.testBit_mod_two_pow, Nat.testBit_shiftRight,
    testBit_merge W _ _ _ _ hU (field_mask_lt W s b), testBit_field_mask,
    Nat.testBit_two_pow_sub_one, Nat.testBit_mod_two_pow, Nat.testBit_mod_two_pow,
    Nat.testBit_shiftLeft]
  by_cases h1 : j < b <;> by_cases h2 : s + j < W
  · have : j < W := by omega
    have : j < min b (W - s) := by omega
    simp [*]
  · have : ¬ j < min b (W - s) := by omega
    have := testBit_of_lt_two_pow_le hU (Nat.le_of_not_lt h2)
    simp [*]
  · have : ¬ j < min b (W - s) := by omega
    simp [*]
  · have : ¬ j < min b (W - s) := by omega
    simp [*]

/-! ## Lemmas: memory objects -/


theorem read_obj_length (buf : Buffer) (a n : Nat) : (read_obj buf a n).length = n := by
  induction n generalizing a with
  | zero => rfl
  | succ n ih => simp [read_obj, ih]

theorem cpu_to_be_length (n x : Nat) : (cpu_to_be n x).length = n := by
  induction n with
  | zero => rfl
  | succ n ih => simp [cpu_to_be, ih]

theorem be_to_cpu_lt (raw : List (Fin 256)) : be_to_cpu raw < 256 ^ raw.length := by
  induction raw with
  | nil => simp [be_to_cpu]
  | cons b rest ih =>
    have hb := b.isLt
    simp only [be_to_cpu, List.length_cons, pow_succ]
    nlinarith [Nat.pos_pow_of_pos rest.length (show 0 < 256 by decide)]

theorem be_to_cpu_cpu_to_be (n x : Nat) : be_to_cpu (cpu_to_be n x) = x % 256 ^ n := by
  induction n with
  | zero => simp [cpu_to_be, be_to_cpu, Nat.mod_one]
  | succ n ih =>
    have e : (2 : Nat) ^ (8 * n) = 256 ^ n := by rw [pow_mul]; norm_num
    simp only [cpu_to_be, be_to_cpu, cpu_to_be_length, ih, to_u8, Nat.shiftRight_eq_div_pow, e]
    rw [pow_succ, Nat.mod_mul]
    ring

theorem read_obj_getD (buf : Buffer) (a n i : Nat) (d : Fin 256) (h : i < n) :
    (read_obj buf a n).getD i d = buf (a + i) := by
  induction n generalizing a i with
  | zero => omega
  | succ n ih =>
    cases i with
    | zero => simp [read_obj]
    | succ i =>
      simp only [read_obj, List.getD_cons_succ]
      rw [ih (a + 1) i (by omega)]
      congr 1; omega

theorem read_obj_congr (b1 b2 : Buffer) (a n : Nat)
    (h : ∀ k, a ≤ k → k < a + n → b1 k = b2 k) : read_obj b1 a n = read_obj b2 a n := by
  induction n generalizing a with
  | zero => rfl
  | succ n ih =>
    simp only [read_obj]
    rw [h a (le_refl a) (by omega), ih (a + 1) (fun k h1 h2 => h k (by omega) (by omega))]

theorem write_obj_outside (buf : Buffer) (a : Nat) (raw : List (Fin 256)) (k : Nat)
    (h : k < a ∨ a + raw.length ≤ k) : write_obj buf a raw k = buf k := by
  unfold write_obj
  split
  · rw [List.getD_eq_default]; omega
  · rfl

theorem write_obj_inside (buf : Buffer) (a : Nat) (raw : List (Fin 256)) (i : Nat) :
    write_obj buf a raw (a + i) = raw.getD i (buf (a + i)) := by
  unfold write_obj
  simp

theorem read_obj_write_obj (buf : Buffer) (a : Nat) (raw : List (Fin 256)) :
    read_obj (write_obj buf a raw) a raw.length = raw := by
  apply List.ext_getElem (read_obj_length _ _ _)
  intro i h1 h2
  have := read_obj_getD (write_obj buf a raw) a raw.length i (buf 0) h2
  rw [List.getD_eq_getElem _ _ h1, write_obj_inside, List.getD_eq_getElem _ _ h2] at this
  exact this

theorem cpu_to_be_getD (n x i : Nat) (d : Fin 256) (h : i < n) :
    (cpu_to_be n x).getD i d = to_u8 (x >>> (8 * (n - 1 - i))) := by
  induction n generalizing i with
  | zero => omega
  | succ n ih =>
    cases i with
    | zero => simp [cpu_to_be]
    | succ i =>
      simp only [cpu_to_be, List.getD_cons_succ]
      rw [ih i (by omega)]
      congr 3; omega

/-! ## Lemmas: masks and offsets -/

theorem GEN_MASK_low (L b : Nat) (h1 : 1 ≤ b) (h2 : b ≤ L) :
    GEN_MASK L ((b : Int) - 1) 0 = 2 ^ b - 1 := by
  have hP : 2 ≤ 2 ^ L := by
    calc 2 = 2 ^ 1 := by norm_num
      _ ≤ 2 ^ L := Nat.pow_le_pow_right (by decide) (by omega)
  have e1 : ((L : Int) - 1 - ((b : Int) - 1)).toNat = L - b := by omega
  have e2 : (1 <<< 0) % 2 ^ L = 1 := by
    simp only [Nat.shiftLeft_zero]; exact Nat.mod_eq_of_lt (by omega)
  have e3 : (2 ^ L - 1 + 2 ^ L - 1) % 2 ^ L = 2 ^ L - 2 := by
    have : 2 ^ L - 1 + 2 ^ L - 1 = (2 ^ L - 2) + 2 ^ L := by omega
    rw [this, Nat.add_mod_right]; exact Nat.mod_eq_of_lt (by omega)
  have e4 : (2 ^ L - 2 + 1) % 2 ^ L = 2 ^ L - 1 := by
    have : 2 ^ L - 2 + 1 = 2 ^ L - 1 := by omega
    rw [this]; exact Nat.mod_eq_of_lt (by omega)
  unfold GEN_MASK
  rw [e1, e2, e3, e4]
  apply Nat.eq_of_testBit_eq
  intro j
  simp only [Nat.testBit_and, Nat.testBit_shiftRight, Nat.testBit_two_pow_sub_one]
  by_cases hj : j < b
  · have h3 : L - b + j < L := by omega
    have h4 : j < L := by omega
    simp [hj, h3, h4]
  · have h3 : ¬ (L - b + j < L) := by omega
    have h5 : b ≤ j := by omega
    simp [h3, h5]

theorem GEN_MASK_ULL_eq (h : Int) (l : Nat) : GEN_MASK_ULL h l = GEN_MASK 64 h l := rfl

theorem offset_none_iff (item : mlxsw_item) (index typesize : Nat) :
    __mlxsw_item_offset item index typesize = none ↔ offset_violation item index typesize := by
  unfold __mlxsw_item_offset offset_violation
  by_cases h1 : index ≠ 0 ∧ item.step = 0
  · simp [h1]
  · by_cases h2 : item.offset % typesize ≠ 0 ∨ item.step % typesize ≠ 0 ∨
        item.in_step_offset % typesize ≠ 0
    · rw [if_neg h1, if_pos h2]; simp only [true_iff]; exact Or.inr h2
    · rw [if_neg h1, if_neg h2]
      constructor
      · intro h; cases h
      · intro h; rcases h with h | h
        · exact absurd h h1
        · exact absurd h h2

theorem byte_pos_lt (item : mlxsw_item) (index : Nat) (hr : item.in_range)
    (hi : index < 2 ^ 16) : byte_pos item index < 2 ^ 32 := by
  obtain ⟨h1, h2, h3, _⟩ := hr
  have : item.step * index ≤ 65535 * 65535 :=
    Nat.mul_le_mul (by omega) (by omega)
  unfold byte_pos
  omega

theorem offset_some (item : mlxsw_item) (index typesize : Nat) (hr : item.in_range)
    (hi : index < 2 ^ 16)
    (hv : ¬ offset_violation item index typesize) :
    __mlxsw_item_offset item index typesize = some (byte_pos item index / typesize) ∧
      byte_pos item index / typesize * typesize = byte_pos item index := by
  have hlt := byte_pos_lt item index hr hi
  obtain ⟨h1, h2, h3, _⟩ := hr
  have hm : item.step * index ≤ 65535 * 65535 :=
    Nat.mul_le_mul (by omega) (by omega)
  unfold offset_violation at hv
  push_neg at hv
  obtain ⟨hv1, hv2, hv3, hv4⟩ := hv
  have hd : typesize ∣ byte_pos item index := by
    unfold byte_pos
    exact Nat.dvd_add (Nat.dvd_add (Nat.dvd_of_mod_eq_zero hv2)
      (Dvd.dvd.mul_right (Nat.dvd_of_mod_eq_zero hv3) index)) (Nat.dvd_of_mod_eq_zero hv4)
  refine ⟨?_, Nat.div_mul_cancel hd⟩
  unfold __mlxsw_item_offset
  have hn1 : ¬ (index ≠ 0 ∧ item.step = 0) := fun h => hv1 h.1 h.2
  have hn2 : ¬ (item.offset % typesize ≠ 0 ∨ item.step % typesize ≠ 0 ∨
      item.in_step_offset % typesize ≠ 0) := by
    rintro (h | h | h)
    · exact h hv2
    · exact h hv3
    · exact h hv4
  rw [if_neg hn1, if_neg hn2]
  have e : ((item.offset + (item.step * index) % 2 ^ 32) % 2 ^ 32
              + item.in_step_offset) % 2 ^ 32 = byte_pos item index := by
    unfold byte_pos at hlt ⊢
    omega
  rw [e]
  congr 1
  exact Nat.mod_eq_of_lt (lt_of_le_of_lt (Nat.div_le_self _ _) hlt)


/-! ## Lemmas: each accessor is an instance of the common body -/

theorem write_obj_single (buf : Buffer) (a : Nat) (b : Fin 256) :
    write_obj buf a [b] = fun k => if k = a then b else buf k := by
  funext k
  unfold write_obj
  by_cases h : k = a
  · subst h; simp
  · by_cases h2 : a ≤ k
    · have : k - a = (k - a - 1) + 1 := by omega
      rw [if_pos h2, if_neg h, this, List.getD_cons_succ]; rfl
    · rw [if_neg h2, if_neg h]

theorem get8_eq (L : Nat) (buf : Buffer) (item : mlxsw_item) (index : Nat) :
    __mlxsw_item_get8 L buf item index
      = scalar_get 1 (GEN_MASK L ((item.size.bits : Int) - 1) 0) buf item index := by
  unfold __mlxsw_item_get8 scalar_get
  cases __mlxsw_item_offset item index 1 <;>
    simp [word_get, read_obj, be_to_cpu]

theorem set8_eq (L : Nat) (buf : Buffer) (item : mlxsw_item) (index val : Nat) :
    __mlxsw_item_set8 L buf item index val
      = scalar_set 1 (((GEN_MASK L ((item.size.bits : Int) - 1) 0 <<< item.shift)
          % 2 ^ L) % 2 ^ 8) buf item index val := by
  unfold __mlxsw_item_set8 scalar_set
  cases __mlxsw_item_offset item index 1 with
  | none => rfl
  | some off =>
    simp only [Option.map_some', cpu_to_be, Nat.mul_zero, Nat.shiftRight_zero, Nat.mul_one,
      write_obj_single, read_obj, be_to_cpu, List.length_nil, pow_zero, Nat.add_zero,
      word_set]

theorem get16_eq (L : Nat) (buf : Buffer) (item : mlxsw_item) (index : Nat) :
    __mlxsw_item_get16 L buf item index
      = scalar_get 2 (GEN_MASK L ((item.size.bits : Int) - 1) 0) buf item index := by
  unfold __mlxsw_item_get16 scalar_get
  cases __mlxsw_item_offset item index 2 <;> rfl

theorem set16_eq (L : Nat) (buf : Buffer) (item : mlxsw_item) (index val : Nat) :
    __mlxsw_item_set16 L buf item index val
      = scalar_set 2 (((GEN_MASK L ((item.size.bits : Int) - 1) 0 <<< item.shift)
          % 2 ^ L) % 2 ^ 16) buf item index val := by
  unfold __mlxsw_item_set16 scalar_set
  cases __mlxsw_item_offset item index 2 <;> rfl

theorem get32_eq (L : Nat) (buf : Buffer) (item : mlxsw_item) (index : Nat) :
    __mlxsw_item_get32 L buf item index
      = scalar_get 4 (GEN_MASK L ((item.size.bits : Int) - 1) 0) buf item index := by
  unfold __mlxsw_item_get32 scalar_get
  cases __mlxsw_item_offset item index 4 <;> rfl

theorem set32_eq (L : Nat) (buf : Buffer) (item : mlxsw_item) (index val : Nat) :
    __mlxsw_item_set32 L buf item index val
      = scalar_set 4 (((GEN_MASK L ((item.size.bits : Int) - 1) 0 <<< item.shift)
          % 2 ^ L) % 2 ^ 32) buf item index val := by
  unfold __mlxsw_item_set32 scalar_set
  cases __mlxsw_item_offset item index 4 <;> rfl

theorem get64_eq (buf : Buffer) (item : mlxsw_item) (index : Nat) :
    __mlxsw_item_get64 buf item index
      = scalar_get 8 (GEN_MASK_ULL ((item.size.bits : Int) - 1) 0) buf item index := by
  unfold __mlxsw_item_get64 scalar_get
  cases __mlxsw_item_offset item index 8 <;> rfl

theorem set64_eq (buf : Buffer) (item : mlxsw_item) (index val : Nat) :
    __mlxsw_item_set64 buf item index val
      = scalar_set 8 ((GEN_MASK_ULL ((item.size.bits : Int) - 1) 0 <<< item.shift)
          % 2 ^ 64) buf item index val := by
  unfold __mlxsw_item_set64 scalar_set
  cases __mlxsw_item_offset item index 8 <;> rfl

/-! ## Offset resolution: results -/

/-- C1: when the values are in the ranges of their C types, the access size is 1, 2,
4 or 8 and the precondition checks pass, `__mlxsw_item_offset` returns an element
offset `r` with `r * typesize = offset + step * index + in_step_offset` over the
naturals, and that sum is below `2 ^ 32`: the `unsigned int` computation never
wraps. -/
theorem offset_resolution_exact (item : mlxsw_item) (index typesize : Nat)
    (_hts : typesize = 1 ∨ typesize = 2 ∨ typesize = 4 ∨ typesize = 8)
    (hr : item.in_range) (hi : index < 2 ^ 16)
    (hv : ¬ offset_violation item index typesize) :
    ∃ r, __mlxsw_item_offset item index typesize = some r ∧
      r * typesize = item.offset + item.step * index + item.in_step_offset ∧
      item.offset + item.step * index + item.in_step_offset < 2 ^ 32 :=
  ⟨byte_pos item index / typesize, (offset_some item index typesize hr hi hv).1,
    (offset_some item index typesize hr hi hv).2, byte_pos_lt item index hr hi⟩

/-- Witness of C1: offset 8, step 16, in-step offset 4, index 3, access size 4. -/
theorem offset_resolution_exact_witness :
    ∃ r, __mlxsw_item_offset ⟨8, 16, 4, 0, 0, false, ⟨8, 0⟩⟩ 3 4 = some r ∧
      r * 4 = 8 + 16 * 3 + 4 ∧ 8 + 16 * 3 + 4 < 2 ^ 32 :=
  offset_resolution_exact ⟨8, 16, 4, 0, 0, false, ⟨8, 0⟩⟩ 3 4 (by decide) (by decide)
    (by decide) (by decide)

theorem map_offset_none_iff {α : Type} (item : mlxsw_item) (index n : Nat) (f : Nat → α) :
    (match __mlxsw_item_offset item index n with
      | none => none
      | some offset => some (f offset)) = none ↔ offset_violation item index n := by
  rw [← offset_none_iff]
  cases __mlxsw_item_offset item index n <;> simp

/-- C2: offset resolution fails exactly when the index is nonzero with a zero step or
one of offset, step, in-step offset is not a multiple of the access size; every
scalar get and set, both opaque copies and the data pointer fail exactly under that
condition for their access size, whatever the buffer and the value; offset 3 with
access size 4 fails, and step 0 with index 2 fails. -/
theorem offset_failure_iff (L : Nat) (buf other : Buffer) (item : mlxsw_item)
    (index val typesize : Nat) :
    (__mlxsw_item_offset item index typesize = none ↔
      ((index ≠ 0 ∧ item.step = 0) ∨ item.offset % typesize ≠ 0 ∨
        item.step % typesize ≠ 0 ∨ item.in_step_offset % typesize ≠ 0)) ∧
    (__mlxsw_item_get8 L buf item index = none ↔ offset_violation item index 1) ∧
    (__mlxsw_item_set8 L buf item index val = none ↔ offset_violation item index 1) ∧
    (__mlxsw_item_get16 L buf item index = none ↔ offset_violation item index 2) ∧
    (__mlxsw_item_set16 L buf item index val = none ↔ offset_violation item index 2) ∧
    (__mlxsw_item_get32 L buf item index = none ↔ offset_violation item index 4) ∧
    (__mlxsw_item_set32 L buf item index val = none ↔ offset_violation item index 4) ∧
    (__mlxsw_item_get64 buf item index = none ↔ offset_violation item index 8) ∧
    (__mlxsw_item_set64 buf item index val = none ↔ offset_violation item index 8) ∧
    (__mlxsw_item_memcpy_from buf other item index = none ↔ offset_violation item index 1) ∧
    (__mlxsw_item_memcpy_to buf other item index = none ↔ offset_violation item index 1) ∧
    (__mlxsw_item_data buf item index = none ↔ offset_violation item index 1) ∧
    (item.offset = 3 → __mlxsw_item_offset item index 4 = none) ∧
    (item.step = 0 → __mlxsw_item_offset item 2 typesize = none) := by
  refine ⟨offset_none_iff item index typesize, ?_, ?_, ?_, ?_, ?_, ?_, ?_, ?_, ?_, ?_, ?_, ?_, ?_⟩
  · exact map_offset_none_iff item index 1 _
  · exact map_offset_none_iff item index 1 _
  · exact map_offset_none_iff item index 2 _
  · exact map_offset_none_iff item index 2 _
  · exact map_offset_none_iff item index 4 _
  · exact map_offset_none_iff item index 4 _
  · exact map_offset_none_iff item index 8 _
  · exact map_offset_none_iff item index 8 _
  · exact map_offset_none_iff item index 1 _
  · exact map_offset_none_iff item index 1 _
  · exact map_offset_none_iff item index 1 _
  · intro h
    rw [offset_none_iff]
    exact Or.inr (Or.inl (by rw [h]; decide))
  · intro h
    rw [offset_none_iff]
    exact Or.inl ⟨by decide, h⟩

/-- Witness of C2: a descriptor at offset 3 read with access size 4, and a descriptor
without stride accessed at index 2. -/
theorem offset_failure_iff_witness :
    __mlxsw_item_offset ⟨3, 0, 0, 0, 0, false, ⟨8, 0⟩⟩ 0 4 = none ∧
    __mlxsw_item_offset ⟨0, 0, 0, 0, 0, false, ⟨8, 0⟩⟩ 2 1 = none ∧
    (__mlxsw_item_get32 64 (fun _ => 0) ⟨3, 0, 0, 0, 0, false, ⟨8, 0⟩⟩ 0 = none ↔
      offset_violation ⟨3, 0, 0, 0, 0, false, ⟨8, 0⟩⟩ 0 4) :=
  ⟨(offset_failure_iff 64 (fun _ => 0) (fun _ => 0) ⟨3, 0, 0, 0, 0, false, ⟨8, 0⟩⟩
      0 0 4).2.2.2.2.2.2.2.2.2.2.2.2.1 rfl,
   (offset_failure_iff 64 (fun _ => 0) (fun _ => 0) ⟨0, 0, 0, 0, 0, false, ⟨8, 0⟩⟩
      0 0 1).2.2.2.2.2.2.2.2.2.2.2.2.2 rfl,
   (offset_failure_iff 64 (fun _ => 0) (fun _ => 0) ⟨3, 0, 0, 0, 0, false, ⟨8, 0⟩⟩
      0 0 4).2.2.2.2.2.1⟩

/-! ## Lemmas: load and store of a storage unit -/

theorem two_pow_eight_mul (n : Nat) : (2 : Nat) ^ (8 * n) = 256 ^ n := by
  rw [pow_mul]; norm_num

theorem load_lt (buf : Buffer) (p n : Nat) : be_to_cpu (read_obj buf p n) < 2 ^ (8 * n) := by
  have h := be_to_cpu_lt (read_obj buf p n)
  rw [read_obj_length] at h
  rwa [two_pow_eight_mul]

theorem load_store (buf : Buffer) (p n X : Nat) (hX : X < 2 ^ (8 * n)) :
    be_to_cpu (read_obj (write_obj buf p (cpu_to_be n X)) p n) = X := by
  have h := read_obj_write_obj buf p (cpu_to_be n X)
  rw [cpu_to_be_length] at h
  rw [h, be_to_cpu_cpu_to_be, ← two_pow_eight_mul]
  exact Nat.mod_eq_of_lt hX

theorem store_outside (buf : Buffer) (p n X k : Nat) (h : k < p ∨ p + n ≤ k) :
    write_obj buf p (cpu_to_be n X) k = buf k :=
  write_obj_outside buf p _ k (by rw [cpu_to_be_length]; exact h)

theorem scalar_get_some (n m : Nat) (buf : Buffer) (item : mlxsw_item) (index : Nat)
    (hr : item.in_range) (hi : index < 2 ^ 16) (hv : ¬ offset_violation item index n) :
    scalar_get n m buf item index
      = some (word_get (8 * n) item.shift item.no_real_shift m
          (be_to_cpu (read_obj buf (byte_pos item index) n))) := by
  obtain ⟨h1, h2⟩ := offset_some item index n hr hi hv
  unfold scalar_get
  rw [h1, Option.map_some', h2]

theorem scalar_set_some (n mask : Nat) (buf : Buffer) (item : mlxsw_item) (index val : Nat)
    (hr : item.in_range) (hi : index < 2 ^ 16) (hv : ¬ offset_violation item index n) :
    scalar_set n mask buf item index val
      = some (write_obj buf (byte_pos item index) (cpu_to_be n
          (word_set (8 * n) item.shift item.no_real_shift mask
            (be_to_cpu (read_obj buf (byte_pos item index) n)) val))) := by
  obtain ⟨h1, h2⟩ := offset_some item index n hr hi hv
  unfold scalar_set
  rw [h1, Option.map_some', h2]

theorem mask_trunc (L W s b : Nat) (h1 : 1 ≤ b) (h2 : b ≤ W) (hW : W ≤ L) :
    ((GEN_MASK L ((b : Int) - 1) 0 <<< s) % 2 ^ L) % 2 ^ W = field_mask W s b := by
  rw [GEN_MASK_low L b h1 (le_trans h2 hW), Nat.mod_mod_of_dvd _ (pow_dvd_pow 2 hW)]
  rfl

theorem get8_valid (L : Nat) (hL : 32 ≤ L) (buf : Buffer) (item : mlxsw_item) (index : Nat)
    (hv : valid_scalar 8 item index) :
    __mlxsw_item_get8 L buf item index = some (get_value 1 buf item index) := by
  obtain ⟨hr, hi, hov, hb1, hb2, _⟩ := hv
  rw [get8_eq, GEN_MASK_low L _ hb1 (by omega)]
  exact scalar_get_some 1 _ buf item index hr hi hov

theorem set8_valid (L : Nat) (hL : 32 ≤ L) (buf : Buffer) (item : mlxsw_item)
    (index val : Nat) (hv : valid_scalar 8 item index) :
    __mlxsw_item_set8 L buf item index val = some (set_buffer 1 buf item index val) := by
  obtain ⟨hr, hi, hov, hb1, hb2, _⟩ := hv
  rw [set8_eq, mask_trunc L 8 _ _ hb1 hb2 (by omega)]
  exact scalar_set_some 1 _ buf item index val hr hi hov

theorem get16_valid (L : Nat) (hL : 32 ≤ L) (buf : Buffer) (item : mlxsw_item) (index : Nat)
    (hv : valid_scalar 16 item index) :
    __mlxsw_item_get16 L buf item index = some (get_value 2 buf item index) := by
  obtain ⟨hr, hi, hov, hb1, hb2, _⟩ := hv
  rw [get16_eq, GEN_MASK_low L _ hb1 (by omega)]
  exact scalar_get_some 2 _ buf item index hr hi hov

theorem set16_valid (L : Nat) (hL : 32 ≤ L) (buf : Buffer) (item : mlxsw_item)
    (index val : Nat) (hv : valid_scalar 16 item index) :
    __mlxsw_item_set16 L buf item index val = some (set_buffer 2 buf item index val) := by
  obtain ⟨hr, hi, hov, hb1, hb2, _⟩ := hv
  rw [set16_eq, mask_trunc L 16 _ _ hb1 hb2 (by omega)]
  exact scalar_set_some 2 _ buf item index val hr hi hov

theorem get32_valid (L : Nat) (hL : 32 ≤ L) (buf : Buffer) (item : mlxsw_item) (index : Nat)
    (hv : valid_scalar 32 item index) :
    __mlxsw_item_get32 L buf item index = some (get_value 4 buf item index) := by
  obtain ⟨hr, hi, hov, hb1, hb2, _⟩ := hv
  rw [get32_eq, GEN_MASK_low L _ hb1 (by omega)]
  exact scalar_get_some 4 _ buf item index hr hi hov

theorem set32_valid (L : Nat) (hL : 32 ≤ L) (buf : Buffer) (item : mlxsw_item)
    (index val : Nat) (hv : valid_scalar 32 item index) :
    __mlxsw_item_set32 L buf item index val = some (set_buffer 4 buf item index val) := by
  obtain ⟨hr, hi, hov, hb1, hb2, _⟩ := hv
  rw [set32_eq, mask_trunc L 32 _ _ hb1 hb2 (by omega)]
  exact scalar_set_some 4 _ buf item index val hr hi hov

theorem get64_valid (buf : Buffer) (item : mlxsw_item) (index : Nat)
    (hv : valid_scalar 64 item index) :
    __mlxsw_item_get64 buf item index = some (get_value 8 buf item index) := by
  obtain ⟨hr, hi, hov, hb1, hb2, _⟩ := hv
  rw [get64_eq, GEN_MASK_ULL_eq, GEN_MASK_low 64 _ hb1 hb2]
  exact scalar_get_some 8 _ buf item index hr hi hov

theorem set64_valid (buf : Buffer) (item : mlxsw_item) (index val : Nat)
    (hv : valid_scalar 64 item index) :
    __mlxsw_item_set64 buf item index val = some (set_buffer 8 buf item index val) := by
  obtain ⟨hr, hi, hov, hb1, hb2, _⟩ := hv
  rw [set64_eq, GEN_MASK_ULL_eq, GEN_MASK_low 64 _ hb1 hb2]
  exact scalar_set_some 8 _ buf item index val hr hi hov

/-! ## Lemmas: the accessor bodies -/

theorem stored_word_lt (n : Nat) (buf : Buffer) (item : mlxsw_item) (index val : Nat) :
    word_set (8 * n) item.shift item.no_real_shift (field_mask (8 * n) item.shift item.size.bits)
      (be_to_cpu (read_obj buf (byte_pos item index) n)) val < 2 ^ (8 * n) :=
  word_set_lt _ _ _ _ _ _ (load_lt _ _ _) (field_mask_lt _ _ _)

theorem load_set_buffer (n : Nat) (buf : Buffer) (item : mlxsw_item) (index val : Nat) :
    be_to_cpu (read_obj (set_buffer n buf item index val) (byte_pos item index) n)
      = word_set (8 * n) item.shift item.no_real_shift
          (field_mask (8 * n) item.shift item.size.bits)
          (be_to_cpu (read_obj buf (byte_pos item index) n)) val :=
  load_store buf _ n _ (stored_word_lt n buf item index val)

theorem get_set_real (n : Nat) (buf : Buffer) (item : mlxsw_item) (index val : Nat)
    (hs : item.no_real_shift = false) :
    get_value n (set_buffer n buf item index val) item index
      = val % 2 ^ (min item.size.bits (8 * n - item.shift)) := by
  unfold get_value
  rw [load_set_buffer, hs]
  exact word_round_trip (8 * n) item.shift item.size.bits _ val (load_lt _ _ _)

theorem set_buffer_outside (n : Nat) (buf : Buffer) (item : mlxsw_item) (index val k : Nat)
    (h : k < byte_pos item index ∨ byte_pos item index + n ≤ k) :
    set_buffer n buf item index val k = buf k :=
  store_outside buf _ n _ k h

theorem set_buffer_bits_outside (n : Nat) (buf : Buffer) (item : mlxsw_item)
    (index val j : Nat) (h : j < item.shift ∨ item.shift + item.size.bits ≤ j) :
    (be_to_cpu (read_obj (set_buffer n buf item index val) (byte_pos item index) n)).testBit j
      = (be_to_cpu (read_obj buf (byte_pos item index) n)).testBit j := by
  rw [load_set_buffer]
  unfold word_set
  rw [testBit_merge (8 * n) _ _ _ _ (load_lt _ _ _) (field_mask_lt _ _ _), testBit_field_mask]
  have : (decide (item.shift ≤ j) && decide (j - item.shift < item.size.bits)) = false := by
    rcases h with h | h
    · have : ¬ item.shift ≤ j := by omega
      simp [this]
    · have : ¬ j - item.shift < item.size.bits := by omega
      simp [this]
  rw [this]
  simp

theorem word_set_trunc (W s b U v : Nat) :
    word_set W s false (field_mask W s b) U v
      = word_set W s false (field_mask W s b) U (v &&& (2 ^ b - 1)) := by
  have key : ((v <<< s) % 2 ^ W) &&& field_mask W s b
      = (((v &&& (2 ^ b - 1)) <<< s) % 2 ^ W) &&& field_mask W s b := by
    apply Nat.eq_of_testBit_eq
    intro j
    simp only [Nat.testBit_and, Nat.testBit_mod_two_pow,
      Nat.testBit_shiftLeft, testBit_field_mask, Nat.testBit_two_pow_sub_one]
    by_cases h : j - s < b <;> simp [h]
  simp only [word_set, Bool.not_false, if_true]
  rw [key]

theorem set_buffer_trunc (n : Nat) (buf : Buffer) (item : mlxsw_item) (index val : Nat)
    (hs : item.no_real_shift = false) :
    set_buffer n buf item index val
      = set_buffer n buf item index (val &&& (2 ^ item.size.bits - 1)) := by
  unfold set_buffer
  rw [hs, ← word_set_trunc]

theorem word_get_reference (W s b U : Nat) (nrs : Bool) (hU : U < 2 ^ W) :
    word_get W s nrs (2 ^ b - 1) U
      = if nrs then (((U >>> s) &&& (2 ^ b - 1)) <<< s) % 2 ^ W
        else (U >>> s) &&& (2 ^ b - 1) := by
  have h1 : U >>> s < 2 ^ W := by
    rw [Nat.shiftRight_eq_div_pow]
    exact lt_of_le_of_lt (Nat.div_le_self _ _) hU
  have h2 : (U >>> s) &&& (2 ^ b - 1) < 2 ^ W := lt_of_le_of_lt Nat.and_le_left h1
  unfold word_get
  simp only [Nat.mod_eq_of_lt h1, Nat.mod_eq_of_lt h2]

theorem word_set_full (W U v : Nat) (nrs : Bool) (hU : U < 2 ^ W) (hv : v < 2 ^ W) :
    word_set W 0 nrs (field_mask W 0 W) U v = v := by
  apply Nat.eq_of_testBit_eq
  intro j
  unfold word_set
  rw [testBit_merge W _ _ _ _ hU (field_mask_lt _ _ _), testBit_field_mask]
  by_cases hj : j < W
  · cases nrs <;> simp [hj, Nat.mod_eq_of_lt hv]
  · have h1 := testBit_of_lt_two_pow_le hU (Nat.le_of_not_lt hj)
    have h2 := testBit_of_lt_two_pow_le hv (Nat.le_of_not_lt hj)
    simp [hj, h1, h2]

theorem set_buffer_full (n : Nat) (buf : Buffer) (item : mlxsw_item) (index val k : Nat)
    (hb : item.size.bits = 8 * n) (hs : item.shift = 0) (hv : val < 2 ^ (8 * n))
    (hk : k < n) :
    (set_buffer n buf item index val (byte_pos item index + k)).val
      = (val / 2 ^ (8 * (n - 1 - k))) % 256 := by
  unfold set_buffer
  rw [hb, hs, word_set_full _ _ _ _ (load_lt _ _ _) hv, write_obj_inside,
    cpu_to_be_getD _ _ _ _ hk, Nat.shiftRight_eq_div_pow]
  rfl

theorem word_round_trip_virtual (W s b U v : Nat) (hU : U < 2 ^ W) (hw : s + b ≤ W) :
    word_get W s true (2 ^ b - 1) (word_set W s true (field_mask W s b) U v)
      = v &&& ((2 ^ b - 1) <<< s) := by
  apply Nat.eq_of_testBit_eq
  intro j
  simp only [word_get, word_set, Bool.not_true, if_true, Bool.false_eq_true, if_false]
  rw [Nat.testBit_mod_two_pow, Nat.testBit_shiftLeft, Nat.testBit_mod_two_pow, Nat.testBit_and,
    Nat.testBit_mod_two_pow, Nat.testBit_shiftRight,
    testBit_merge W _ _ _ _ hU (field_mask_lt W s b), testBit_field_mask,
    Nat.testBit_two_pow_sub_one]
  simp only [Nat.testBit_shiftLeft, Nat.testBit_two_pow_sub_one, Nat.testBit_and,
    testBit_field_mask]
  by_cases h1 : s ≤ j
  · by_cases h2 : j - s < b
    · have h3 : j < W := by omega
      have h4 : s + (j - s) = j := by omega
      have h5 : j - s < W := by omega
      simp [h1, h2, h3, h4, h5]
    · simp [h1, h2]
  · simp [h1]

theorem get_set_virtual (n : Nat) (buf : Buffer) (item : mlxsw_item) (index val : Nat)
    (hs : item.no_real_shift = true) (hw : item.shift + item.size.bits ≤ 8 * n) :
    get_value n (set_buffer n buf item index val) item index
      = val &&& ((2 ^ item.size.bits - 1) <<< item.shift) := by
  unfold get_value
  rw [load_set_buffer, hs]
  exact word_round_trip_virtual (8 * n) item.shift item.size.bits _ val (load_lt _ _ _) hw

theorem set_buffer_bits_virtual (n : Nat) (buf : Buffer) (item : mlxsw_item)
    (index val j : Nat) (hs : item.no_real_shift = true)
    (hw : item.shift + item.size.bits ≤ 8 * n)
    (h1 : item.shift ≤ j) (h2 : j < item.shift + item.size.bits) :
    (be_to_cpu (read_obj (set_buffer n buf item index val) (byte_pos item index) n)).testBit j
      = val.testBit j := by
  rw [load_set_buffer, hs]
  unfold word_set
  rw [testBit_merge (8 * n) _ _ _ _ (load_lt _ _ _) (field_mask_lt _ _ _), testBit_field_mask]
  have h3 : j < 8 * n := by omega
  have h4 : j - item.shift < item.size.bits := by omega
  simp [h1, h3, h4]

theorem get_after_set_other (n : Nat) (buf : Buffer) (item : mlxsw_item) (i j v : Nat)
    (hne : byte_pos item i + n ≤ byte_pos item j ∨ byte_pos item j + n ≤ byte_pos item i) :
    get_value n (set_buffer n buf item i v) item j = get_value n buf item j := by
  unfold get_value
  rw [read_obj_congr (set_buffer n buf item i v) buf (byte_pos item j) n]
  intro k h1 h2
  exact set_buffer_outside n buf item i v k (by omega)

theorem units_disjoint (n : Nat) (item : mlxsw_item) (i j : Nat)
    (hstep : item.step ≠ 0) (hdiv : item.step % n = 0) (hij : i ≠ j) :
    byte_pos item i + n ≤ byte_pos item j ∨ byte_pos item j + n ≤ byte_pos item i := by
  have hle : n ≤ item.step := Nat.le_of_dvd (Nat.pos_of_ne_zero hstep) (Nat.dvd_of_mod_eq_zero hdiv)
  unfold byte_pos
  rcases Nat.lt_or_gt_of_ne hij with h | h
  · left
    have := Nat.mul_le_mul_left item.step (Nat.succ_le_of_lt h)
    rw [Nat.mul_succ] at this
    omega
  · right
    have := Nat.mul_le_mul_left item.step (Nat.succ_le_of_lt h)
    rw [Nat.mul_succ] at this
    omega

theorem units_distance (item : mlxsw_item) (i j : Nat) :
    Int.natAbs ((byte_pos item i : Int) - (byte_pos item j : Int))
      = item.step * Int.natAbs ((i : Int) - (j : Int)) := by
  have e : (byte_pos item i : Int) - (byte_pos item j : Int)
      = (item.step : Int) * ((i : Int) - (j : Int)) := by
    unfold byte_pos; push_cast; ring
  rw [e, Int.natAbs_mul, Int.natAbs_ofNat]

theorem load1 (buf : Buffer) (p : Nat) : be_to_cpu (read_obj buf p 1) = (buf p).val := by
  simp [read_obj, be_to_cpu]

theorem load2 (buf : Buffer) (p : Nat) :
    be_to_cpu (read_obj buf p 2) = (buf p).val * 2 ^ 8 + (buf (p + 1)).val := by
  simp [read_obj, be_to_cpu]

theorem load4 (buf : Buffer) (p : Nat) :
    be_to_cpu (read_obj buf p 4)
      = (buf p).val * 2 ^ 24 + (buf (p + 1)).val * 2 ^ 16 + (buf (p + 2)).val * 2 ^ 8
        + (buf (p + 3)).val := by
  simp only [read_obj, be_to_cpu, List.length_cons, List.length_nil, Nat.add_assoc]
  norm_num

theorem load8 (buf : Buffer) (p : Nat) :
    be_to_cpu (read_obj buf p 8)
      = (buf p).val * 2 ^ 56 + (buf (p + 1)).val * 2 ^ 48 + (buf (p + 2)).val * 2 ^ 40
        + (buf (p + 3)).val * 2 ^ 32 + (buf (p + 4)).val * 2 ^ 24 + (buf (p + 5)).val * 2 ^ 16
        + (buf (p + 6)).val * 2 ^ 8 + (buf (p + 7)).val := by
  simp only [read_obj, be_to_cpu, List.length_cons, List.length_nil, Nat.add_assoc]
  norm_num

/-! ## Scalar accessors: results -/

/-- Counterexample to C3 as stated: an 8-bit access with a field of 8 bits at shift 4
(both in the stated ranges); writing `0x10` into a zero buffer and reading it back
gives `0`, not `0x10 & 0xff = 0x10`. -/
theorem scalar_round_trip_counterexample :
    valid_scalar 8 ⟨0, 0, 0, 4, 0, false, ⟨8, 0⟩⟩ 0 ∧
    ((__mlxsw_item_set8 64 (fun _ => 0) ⟨0, 0, 0, 4, 0, false, ⟨8, 0⟩⟩ 0 0x10).bind
        fun buf' => __mlxsw_item_get8 64 buf' ⟨0, 0, 0, 4, 0, false, ⟨8, 0⟩⟩ 0) = some 0 ∧
    0x10 &&& (2 ^ 8 - 1) = 0x10 := by
  decide

/-- C3 (amended): for each access width `W`, a valid descriptor that shifts for real,
a field of 1 to `W` bits and a shift below `W`: `set` succeeds and the following `get`
returns the value masked to the part of the field that lies inside the storage unit,
`v & (2 ^ min width (W - shift) - 1)`. -/
theorem scalar_round_trip_in_unit (L : Nat) (hL : L = 32 ∨ L = 64) (buf : Buffer)
    (item : mlxsw_item) (index v : Nat) (hs : item.no_real_shift = false) :
    (valid_scalar 8 item index →
      ∃ buf', __mlxsw_item_set8 L buf item index v = some buf' ∧
        __mlxsw_item_get8 L buf' item index
          = some (v &&& (2 ^ min item.size.bits (8 - item.shift) - 1))) ∧
    (valid_scalar 16 item index →
      ∃ buf', __mlxsw_item_set16 L buf item index v = some buf' ∧
        __mlxsw_item_get16 L buf' item index
          = some (v &&& (2 ^ min item.size.bits (16 - item.shift) - 1))) ∧
    (valid_scalar 32 item index →
      ∃ buf', __mlxsw_item_set32 L buf item index v = some buf' ∧
        __mlxsw_item_get32 L buf' item index
          = some (v &&& (2 ^ min item.size.bits (32 - item.shift) - 1))) ∧
    (valid_scalar 64 item index →
      ∃ buf', __mlxsw_item_set64 buf item index v = some buf' ∧
        __mlxsw_item_get64 buf' item index
          = some (v &&& (2 ^ min item.size.bits (64 - item.shift) - 1))) := by
  have h32 : 32 ≤ L := by rcases hL with h | h <;> omega
  refine ⟨fun hv => ⟨_, set8_valid L h32 buf item index v hv, ?_⟩,
    fun hv => ⟨_, set16_valid L h32 buf item index v hv, ?_⟩,
    fun hv => ⟨_, set32_valid L h32 buf item index v hv, ?_⟩,
    fun hv => ⟨_, set64_valid buf item index v hv, ?_⟩⟩
  · rw [get8_valid L h32 _ item index hv, get_set_real 1 buf item index v hs,
      Nat.and_pow_two_sub_one_eq_mod]
  · rw [get16_valid L h32 _ item index hv, get_set_real 2 buf item index v hs,
      Nat.and_pow_two_sub_one_eq_mod]
  · rw [get32_valid L h32 _ item index hv, get_set_real 4 buf item index v hs,
      Nat.and_pow_two_sub_one_eq_mod]
  · rw [get64_valid _ item index hv, get_set_real 8 buf item index v hs,
      Nat.and_pow_two_sub_one_eq_mod]

/-- Witness of C3 (amended): a 12-bit field at shift 4 of a 16-bit unit at index 1 of a
stride of 8 bytes. -/
theorem scalar_round_trip_in_unit_witness :
    ∃ buf', __mlxsw_item_set16 64 (fun _ => 0xff) ⟨8, 8, 2, 4, 0, false, ⟨12, 0⟩⟩ 1 0xabcd
        = some buf' ∧
      __mlxsw_item_get16 64 buf' ⟨8, 8, 2, 4, 0, false, ⟨12, 0⟩⟩ 1
        = some (0xabcd &&& (2 ^ min 12 (16 - 4) - 1)) :=
  (scalar_round_trip_in_unit 64 (Or.inr rfl) (fun _ => 0xff)
    ⟨8, 8, 2, 4, 0, false, ⟨12, 0⟩⟩ 1 0xabcd rfl).2.1 (by decide)

/-- C4: for each access width, a valid `set` succeeds, leaves every byte outside the
storage unit at `byte_pos item index` unchanged, and inside the unit, read as a
big-endian integer, leaves every bit outside positions `shift .. shift + bits - 1`
unchanged. -/
theorem scalar_set_frame (L : Nat) (hL : L = 32 ∨ L = 64) (buf : Buffer)
    (item : mlxsw_item) (index v : Nat) :
    (valid_scalar 8 item index →
      ∃ buf', __mlxsw_item_set8 L buf item index v = some buf' ∧
        (∀ k, k < byte_pos item index ∨ byte_pos item index + 1 ≤ k → buf' k = buf k) ∧
        (∀ j, j < item.shift ∨ item.shift + item.size.bits ≤ j →
          (buf' (byte_pos item index)).val.testBit j
            = (buf (byte_pos item index)).val.testBit j)) ∧
    (valid_scalar 16 item index →
      ∃ buf', __mlxsw_item_set16 L buf item index v = some buf' ∧
        (∀ k, k < byte_pos item index ∨ byte_pos item index + 2 ≤ k → buf' k = buf k) ∧
        (∀ j, j < item.shift ∨ item.shift + item.size.bits ≤ j →
          (be_to_cpu (read_obj buf' (byte_pos item index) 2)).testBit j
            = (be_to_cpu (read_obj buf (byte_pos item index) 2)).testBit j)) ∧
    (valid_scalar 32 item index →
      ∃ buf', __mlxsw_item_set32 L buf item index v = some buf' ∧
        (∀ k, k < byte_pos item index ∨ byte_pos item index + 4 ≤ k → buf' k = buf k) ∧
        (∀ j, j < item.shift ∨ item.shift + item.size.bits ≤ j →
          (be_to_cpu (read_obj buf' (byte_pos item index) 4)).testBit j
            = (be_to_cpu (read_obj buf (byte_pos item index) 4)).testBit j)) ∧
    (valid_scalar 64 item index →
      ∃ buf', __mlxsw_item_set64 buf item index v = some buf' ∧
        (∀ k, k < byte_pos item index ∨ byte_pos item index + 8 ≤ k → buf' k = buf k) ∧
        (∀ j, j < item.shift ∨ item.shift + item.size.bits ≤ j →
          (be_to_cpu (read_obj buf' (byte_pos item index) 8)).testBit j
            = (be_to_cpu (read_obj buf (byte_pos item index) 8)).testBit j)) := by
  have h32 : 32 ≤ L := by rcases hL with h | h <;> omega
  refine ⟨fun hv => ⟨_, set8_valid L h32 buf item index v hv,
      set_buffer_outside 1 buf item index v, ?_⟩,
    fun hv => ⟨_, set16_valid L h32 buf item index v hv,
      set_buffer_outside 2 buf item index v, set_buffer_bits_outside 2 buf item index v⟩,
    fun hv => ⟨_, set32_valid L h32 buf item index v hv,
      set_buffer_outside 4 buf item index v, set_buffer_bits_outside 4 buf item index v⟩,
    fun hv => ⟨_, set64_valid buf item index v hv,
      set_buffer_outside 8 buf item index v, set_buffer_bits_outside 8 buf item index v⟩⟩
  intro j hj
  have := set_buffer_bits_outside 1 buf item index v j hj
  rwa [load1, load1] at this

/-- Witness of C4: a 5-bit field at shift 9 of the 32-bit unit at byte 12. -/
theorem scalar_set_frame_witness :
    ∃ buf', __mlxsw_item_set32 64 (fun _ => 0x5a) ⟨4, 8, 0, 9, 0, false, ⟨5, 0⟩⟩ 1 0x1f
        = some buf' ∧
      (∀ k, k < byte_pos ⟨4, 8, 0, 9, 0, false, ⟨5, 0⟩⟩ 1 ∨
          byte_pos ⟨4, 8, 0, 9, 0, false, ⟨5, 0⟩⟩ 1 + 4 ≤ k → buf' k = 0x5a) ∧
      (∀ j, j < 9 ∨ 9 + 5 ≤ j →
        (be_to_cpu (read_obj buf' (byte_pos ⟨4, 8, 0, 9, 0, false, ⟨5, 0⟩⟩ 1) 4)).testBit j
          = (be_to_cpu (read_obj (fun _ => 0x5a)
              (byte_pos ⟨4, 8, 0, 9, 0, false, ⟨5, 0⟩⟩ 1) 4)).testBit j) :=
  (scalar_set_frame 64 (Or.inr rfl) (fun _ => 0x5a)
    ⟨4, 8, 0, 9, 0, false, ⟨5, 0⟩⟩ 1 0x1f).2.2.1 (by decide)

/-- C5: for each access width and a valid descriptor that shifts for real, `set`
succeeds for every value and stores exactly what it stores for the value masked to
the field width: a value wider than the field is truncated, not rejected. -/
theorem scalar_set_truncates (L : Nat) (hL : L = 32 ∨ L = 64) (buf : Buffer)
    (item : mlxsw_item) (index v : Nat) (hs : item.no_real_shift = false) :
    (valid_scalar 8 item index →
      (∃ buf', __mlxsw_item_set8 L buf item index v = some buf') ∧
      __mlxsw_item_set8 L buf item index v
        = __mlxsw_item_set8 L buf item index (v &&& (2 ^ item.size.bits - 1))) ∧
    (valid_scalar 16 item index →
      (∃ buf', __mlxsw_item_set16 L buf item index v = some buf') ∧
      __mlxsw_item_set16 L buf item index v
        = __mlxsw_item_set16 L buf item index (v &&& (2 ^ item.size.bits - 1))) ∧
    (valid_scalar 32 item index →
      (∃ buf', __mlxsw_item_set32 L buf item index v = some buf') ∧
      __mlxsw_item_set32 L buf item index v
        = __mlxsw_item_set32 L buf item index (v &&& (2 ^ item.size.bits - 1))) ∧
    (valid_scalar 64 item index →
      (∃ buf', __mlxsw_item_set64 buf item index v = some buf') ∧
      __mlxsw_item_set64 buf item index v
        = __mlxsw_item_set64 buf item index (v &&& (2 ^ item.size.bits - 1))) := by
  have h32 : 32 ≤ L := by rcases hL with h | h <;> omega
  refine ⟨fun hv => ⟨⟨_, set8_valid L h32 buf item index v hv⟩, ?_⟩,
    fun hv => ⟨⟨_, set16_valid L h32 buf item index v hv⟩, ?_⟩,
    fun hv => ⟨⟨_, set32_valid L h32 buf item index v hv⟩, ?_⟩,
    fun hv => ⟨⟨_, set64_valid buf item index v hv⟩, ?_⟩⟩
  · rw [set8_valid L h32 buf item index v hv, set8_valid L h32 buf item index _ hv,
      ← set_buffer_trunc 1 buf item index v hs]
  · rw [set16_valid L h32 buf item index v hv, set16_valid L h32 buf item index _ hv,
      ← set_buffer_trunc 2 buf item index v hs]
  · rw [set32_valid L h32 buf item index v hv, set32_valid L h32 buf item index _ hv,
      ← set_buffer_trunc 4 buf item index v hs]
  · rw [set64_valid buf item index v hv, set64_valid buf item index _ hv,
      ← set_buffer_trunc 8 buf item index v hs]

/-- Witness of C5: the value `0xff` written to a 3-bit field of an 8-bit unit. -/
theorem scalar_set_truncates_witness :
    (∃ buf', __mlxsw_item_set8 64 (fun _ => 0) ⟨2, 0, 0, 1, 0, false, ⟨3, 0⟩⟩ 0 0xff
        = some buf') ∧
      __mlxsw_item_set8 64 (fun _ => 0) ⟨2, 0, 0, 1, 0, false, ⟨3, 0⟩⟩ 0 0xff
        = __mlxsw_item_set8 64 (fun _ => 0) ⟨2, 0, 0, 1, 0, false, ⟨3, 0⟩⟩ 0
            (0xff &&& (2 ^ 3 - 1)) :=
  (scalar_set_truncates 64 (Or.inr rfl) (fun _ => 0)
    ⟨2, 0, 0, 1, 0, false, ⟨3, 0⟩⟩ 0 0xff rfl).1 (by decide)

theorem get_value_reference (n : Nat) (buf : Buffer) (item : mlxsw_item) (index U : Nat)
    (hU : be_to_cpu (read_obj buf (byte_pos item index) n) = U) :
    get_value n buf item index
      = if item.no_real_shift then
          (((U >>> item.shift) &&& (2 ^ item.size.bits - 1)) <<< item.shift) % 2 ^ (8 * n)
        else (U >>> item.shift) &&& (2 ^ item.size.bits - 1) := by
  unfold get_value
  rw [word_get_reference _ _ _ _ _ (load_lt _ _ _), hU]

/-- C6: for each access width and a valid descriptor, `get` returns
`(U >> shift) & (2 ^ bits - 1)`, where `U` is the big-endian value of the storage
unit (the byte at `byte_pos item index` is the most significant); with
`no_real_shift` the result is that value shifted left by `shift` and truncated to the
access width. -/
theorem scalar_get_reference (L : Nat) (hL : L = 32 ∨ L = 64) (buf : Buffer)
    (item : mlxsw_item) (index : Nat) :
    (valid_scalar 8 item index →
      __mlxsw_item_get8 L buf item index = some (
        if item.no_real_shift then
          ((((buf (byte_pos item index)).val >>> item.shift) &&& (2 ^ item.size.bits - 1))
            <<< item.shift) % 2 ^ 8
        else ((buf (byte_pos item index)).val >>> item.shift)
          &&& (2 ^ item.size.bits - 1))) ∧
    (valid_scalar 16 item index →
      __mlxsw_item_get16 L buf item index = some (
        if item.no_real_shift then
          (((((buf (byte_pos item index)).val * 2 ^ 8
              + (buf (byte_pos item index + 1)).val) >>> item.shift)
            &&& (2 ^ item.size.bits - 1)) <<< item.shift) % 2 ^ 16
        else (((buf (byte_pos item index)).val * 2 ^ 8
              + (buf (byte_pos item index + 1)).val) >>> item.shift)
          &&& (2 ^ item.size.bits - 1))) ∧
    (valid_scalar 32 item index →
      __mlxsw_item_get32 L buf item index = some (
        if item.no_real_shift then
          (((((buf (byte_pos item index)).val * 2 ^ 24
              + (buf (byte_pos item index + 1)).val * 2 ^ 16
              + (buf (byte_pos item index + 2)).val * 2 ^ 8
              + (buf (byte_pos item index + 3)).val) >>> item.shift)
            &&& (2 ^ item.size.bits - 1)) <<< item.shift) % 2 ^ 32
        else (((buf (byte_pos item index)).val * 2 ^ 24
              + (buf (byte_pos item index + 1)).val * 2 ^ 16
              + (buf (byte_pos item index + 2)).val * 2 ^ 8
              + (buf (byte_pos item index + 3)).val) >>> item.shift)
          &&& (2 ^ item.size.bits - 1))) ∧
    (valid_scalar 64 item index →
      __mlxsw_item_get64 buf item index = some (
        if item.no_real_shift then
          (((((buf (byte_pos item index)).val * 2 ^ 56
              + (buf (byte_pos item index + 1)).val * 2 ^ 48
              + (buf (byte_pos item index + 2)).val * 2 ^ 40
              + (buf (byte_pos item index + 3)).val * 2 ^ 32
              + (buf (byte_pos item index + 4)).val * 2 ^ 24
              + (buf (byte_pos item index + 5)).val * 2 ^ 16
              + (buf (byte_pos item index + 6)).val * 2 ^ 8
              + (buf (byte_pos item index + 7)).val) >>> item.shift)
            &&& (2 ^ item.size.bits - 1)) <<< item.shift) % 2 ^ 64
        else (((buf (byte_pos item index)).val * 2 ^ 56
              + (buf (byte_pos item index + 1)).val * 2 ^ 48
              + (buf (byte_pos item index + 2)).val * 2 ^ 40
              + (buf (byte_pos item index + 3)).val * 2 ^ 32
              + (buf (byte_pos item index + 4)).val * 2 ^ 24
              + (buf (byte_pos item index + 5)).val * 2 ^ 16
              + (buf (byte_pos item index + 6)).val * 2 ^ 8
              + (buf (byte_pos item index + 7)).val) >>> item.shift)
          &&& (2 ^ item.size.bits - 1))) := by
  have h32 : 32 ≤ L := by rcases hL with h | h <;> omega
  refine ⟨fun hv => ?_, fun hv => ?_, fun hv => ?_, fun hv => ?_⟩
  · rw [get8_valid L h32 buf item index hv,
      get_value_reference 1 buf item index _ (load1 buf _)]
  · rw [get16_valid L h32 buf item index hv,
      get_value_reference 2 buf item index _ (load2 buf _)]
  · rw [get32_valid L h32 buf item index hv,
      get_value_reference 4 buf item index _ (load4 buf _)]
  · rw [get64_valid buf item index hv,
      get_value_reference 8 buf item index _ (load8 buf _)]

/-- Witness of C6: a 16-bit unit holding the bytes `0x12 0x34`, field of 8 bits at
shift 4, read as `0x23`. -/
theorem scalar_get_reference_witness :
    __mlxsw_item_get16 64 (fun k => if k = 6 then 0x12 else 0x34)
        ⟨6, 0, 0, 4, 0, false, ⟨8, 0⟩⟩ 0 = some 0x23 :=
  (scalar_get_reference 64 (Or.inr rfl) (fun k => if k = 6 then 0x12 else 0x34)
    ⟨6, 0, 0, 4, 0, false, ⟨8, 0⟩⟩ 0).2.1 (by decide)

/-- C7: for each access width `W`, a valid descriptor with `bits = W` and `shift = 0`
and a value of `W` bits: after `set` the `W / 8` bytes at `byte_pos item index` are
the big-endian encoding of the value, byte `k` being `(v / 2 ^ (8 * (W / 8 - 1 - k)))
% 256`, whatever the bytes held before and whatever `no_real_shift` is. -/
theorem scalar_set_full_unit (L : Nat) (hL : L = 32 ∨ L = 64) (buf : Buffer)
    (item : mlxsw_item) (index v : Nat) (hz : item.shift = 0) :
    (valid_scalar 8 item index → item.size.bits = 8 → v < 2 ^ 8 →
      ∃ buf', __mlxsw_item_set8 L buf item index v = some buf' ∧
        (buf' (byte_pos item index)).val = v) ∧
    (valid_scalar 16 item index → item.size.bits = 16 → v < 2 ^ 16 →
      ∃ buf', __mlxsw_item_set16 L buf item index v = some buf' ∧
        ∀ k, k < 2 →
          (buf' (byte_pos item index + k)).val = (v / 2 ^ (8 * (2 - 1 - k))) % 256) ∧
    (valid_scalar 32 item index → item.size.bits = 32 → v < 2 ^ 32 →
      ∃ buf', __mlxsw_item_set32 L buf item index v = some buf' ∧
        ∀ k, k < 4 →
          (buf' (byte_pos item index + k)).val = (v / 2 ^ (8 * (4 - 1 - k))) % 256) ∧
    (valid_scalar 64 item index → item.size.bits = 64 → v < 2 ^ 64 →
      ∃ buf', __mlxsw_item_set64 buf item index v = some buf' ∧
        ∀ k, k < 8 →
          (buf' (byte_pos item index + k)).val = (v / 2 ^ (8 * (8 - 1 - k))) % 256) := by
  have h32 : 32 ≤ L := by rcases hL with h | h <;> omega
  refine ⟨fun hv hb hlt => ⟨_, set8_valid L h32 buf item index v hv, ?_⟩,
    fun hv hb hlt => ⟨_, set16_valid L h32 buf item index v hv,
      fun k hk => set_buffer_full 2 buf item index v k hb hz hlt hk⟩,
    fun hv hb hlt => ⟨_, set32_valid L h32 buf item index v hv,
      fun k hk => set_buffer_full 4 buf item index v k hb hz hlt hk⟩,
    fun hv hb hlt => ⟨_, set64_valid buf item index v hv,
      fun k hk => set_buffer_full 8 buf item index v k hb hz hlt hk⟩⟩
  have := set_buffer_full 1 buf item index v 0 hb hz hlt (by decide)
  simp only [Nat.add_zero, Nat.sub_self, Nat.mul_zero, pow_zero, Nat.div_one] at this
  rw [this]
  omega

/-- Witness of C7: `0xdeadbeef` written over a 32-bit unit of `0xff` bytes. -/
theorem scalar_set_full_unit_witness :
    ∃ buf', __mlxsw_item_set32 64 (fun _ => 0xff) ⟨8, 0, 0, 0, 0, true, ⟨32, 0⟩⟩ 0 0xdeadbeef
        = some buf' ∧
      ∀ k, k < 4 →
        (buf' (byte_pos ⟨8, 0, 0, 0, 0, true, ⟨32, 0⟩⟩ 0 + k)).val
          = (0xdeadbeef / 2 ^ (8 * (4 - 1 - k))) % 256 :=
  (scalar_set_full_unit 64 (Or.inr rfl) (fun _ => 0xff)
    ⟨8, 0, 0, 0, 0, true, ⟨32, 0⟩⟩ 0 0xdeadbeef rfl).2.2.1 (by decide) rfl (by decide)

theorem valid_scalar_other (W : Nat) (item : mlxsw_item) (i j : Nat)
    (hv : valid_scalar W item i) (hj : j < 2 ^ 16) (hstep : item.step ≠ 0) :
    valid_scalar W item j := by
  obtain ⟨hr, _, hov, hb⟩ := hv
  refine ⟨hr, hj, ?_, hb⟩
  unfold offset_violation at hov ⊢
  rintro (h | h)
  · exact hstep h.2
  · exact hov (Or.inr h)

theorem valid_scalar_step (W : Nat) (item : mlxsw_item) (i : Nat)
    (hv : valid_scalar W item i) : item.step % (W / 8) = 0 := by
  obtain ⟨_, _, hov, _⟩ := hv
  unfold offset_violation at hov
  by_contra h
  exact hov (Or.inr (Or.inr (Or.inl h)))

theorem valid_scalar_offset (W : Nat) (item : mlxsw_item) (i : Nat)
    (hv : valid_scalar W item i) :
    __mlxsw_item_offset item i (W / 8) = some (byte_pos item i / (W / 8)) ∧
      byte_pos item i / (W / 8) * (W / 8) = byte_pos item i :=
  offset_some item i (W / 8) hv.1 hv.2.1 hv.2.2.1

/-- C8: for each access width, a valid descriptor with a nonzero step and two distinct
indices `i`, `j`: the storage units addressed at `i` and `j` (element offsets `ri`,
`rj` times the access size) start `step * |i - j|` bytes apart and do not overlap, and
`set` at `i` succeeds and leaves the result of `get` at `j` unchanged. -/
theorem indexed_striding_independent (L : Nat) (hL : L = 32 ∨ L = 64) (buf : Buffer)
    (item : mlxsw_item) (i j v : Nat) (hij : i ≠ j) (hstep : item.step ≠ 0)
    (hj : j < 2 ^ 16) :
    (valid_scalar 8 item i →
      ∃ ri rj buf', __mlxsw_item_offset item i 1 = some ri ∧
        __mlxsw_item_offset item j 1 = some rj ∧
        Int.natAbs ((ri * 1 : Int) - (rj * 1 : Int))
          = item.step * Int.natAbs ((i : Int) - (j : Int)) ∧
        (ri * 1 + 1 ≤ rj * 1 ∨ rj * 1 + 1 ≤ ri * 1) ∧
        __mlxsw_item_set8 L buf item i v = some buf' ∧
        __mlxsw_item_get8 L buf' item j = __mlxsw_item_get8 L buf item j) ∧
    (valid_scalar 16 item i →
      ∃ ri rj buf', __mlxsw_item_offset item i 2 = some ri ∧
        __mlxsw_item_offset item j 2 = some rj ∧
        Int.natAbs ((ri * 2 : Int) - (rj * 2 : Int))
          = item.step * Int.natAbs ((i : Int) - (j : Int)) ∧
        (ri * 2 + 2 ≤ rj * 2 ∨ rj * 2 + 2 ≤ ri * 2) ∧
        __mlxsw_item_set16 L buf item i v = some buf' ∧
        __mlxsw_item_get16 L buf' item j = __mlxsw_item_get16 L buf item j) ∧
    (valid_scalar 32 item i →
      ∃ ri rj buf', __mlxsw_item_offset item i 4 = some ri ∧
        __mlxsw_item_offset item j 4 = some rj ∧
        Int.natAbs ((ri * 4 : Int) - (rj * 4 : Int))
          = item.step * Int.natAbs ((i : Int) - (j : Int)) ∧
        (ri * 4 + 4 ≤ rj * 4 ∨ rj * 4 + 4 ≤ ri * 4) ∧
        __mlxsw_item_set32 L buf item i v = some buf' ∧
        __mlxsw_item_get32 L buf' item j = __mlxsw_item_get32 L buf item j) ∧
    (valid_scalar 64 item i →
      ∃ ri rj buf', __mlxsw_item_offset item i 8 = some ri ∧
        __mlxsw_item_offset item j 8 = some rj ∧
        Int.natAbs ((ri * 8 : Int) - (rj * 8 : Int))
          = item.step * Int.natAbs ((i : Int) - (j : Int)) ∧
        (ri * 8 + 8 ≤ rj * 8 ∨ rj * 8 + 8 ≤ ri * 8) ∧
        __mlxsw_item_set64 buf item i v = some buf' ∧
        __mlxsw_item_get64 buf' item j = __mlxsw_item_get64 buf item j) := by
  have h32 : 32 ≤ L := by rcases hL with h | h <;> omega
  refine ⟨fun hv => ?_, fun hv => ?_, fun hv => ?_, fun hv => ?_⟩
  · have hvj := valid_scalar_other 8 item i j hv hj hstep
    obtain ⟨oi, ei⟩ := valid_scalar_offset 8 item i hv
    obtain ⟨oj, ej⟩ := valid_scalar_offset 8 item j hvj
    have hd := units_disjoint 1 item i j hstep (valid_scalar_step 8 item i hv) hij
    refine ⟨_, _, _, oi, oj, ?_, ?_, set8_valid L h32 buf item i v hv, ?_⟩
    · have := units_distance item i j
      rw [← ei, ← ej] at this
      exact_mod_cast this
    · rw [ei, ej]; exact hd
    · rw [get8_valid L h32 _ item j hvj, get8_valid L h32 _ item j hvj,
        get_after_set_other 1 buf item i j v hd]
  · have hvj := valid_scalar_other 16 item i j hv hj hstep
    obtain ⟨oi, ei⟩ := valid_scalar_offset 16 item i hv
    obtain ⟨oj, ej⟩ := valid_scalar_offset 16 item j hvj
    have hd := units_disjoint 2 item i j hstep (valid_scalar_step 16 item i hv) hij
    refine ⟨_, _, _, oi, oj, ?_, ?_, set16_valid L h32 buf item i v hv, ?_⟩
    · have := units_distance item i j
      rw [← ei, ← ej] at this
      exact_mod_cast this
    · rw [ei, ej]; exact hd
    · rw [get16_valid L h32 _ item j hvj, get16_valid L h32 _ item j hvj,
        get_after_set_other 2 buf item i j v hd]
  · have hvj := valid_scalar_other 32 item i j hv hj hstep
    obtain ⟨oi, ei⟩ := valid_scalar_offset 32 item i hv
    obtain ⟨oj, ej⟩ := valid_scalar_offset 32 item j hvj
    have hd := units_disjoint 4 item i j hstep (valid_scalar_step 32 item i hv) hij
    refine ⟨_, _, _, oi, oj, ?_, ?_, set32_valid L h32 buf item i v hv, ?_⟩
    · have := units_distance item i j
      rw [← ei, ← ej] at this
      exact_mod_cast this
    · rw [ei, ej]; exact hd
    · rw [get32_valid L h32 _ item j hvj, get32_valid L h32 _ item j hvj,
        get_after_set_other 4 buf item i j v hd]
  · have hvj := valid_scalar_other 64 item i j hv hj hstep
    obtain ⟨oi, ei⟩ := valid_scalar_offset 64 item i hv
    obtain ⟨oj, ej⟩ := valid_scalar_offset 64 item j hvj
    have hd := units_disjoint 8 item i j hstep (valid_scalar_step 64 item i hv) hij
    refine ⟨_, _, _, oi, oj, ?_, ?_, set64_valid buf item i v hv, ?_⟩
    · have := units_distance item i j
      rw [← ei, ← ej] at this
      exact_mod_cast this
    · rw [ei, ej]; exact hd
    · rw [get64_valid _ item j hvj, get64_valid _ item j hvj,
        get_after_set_other 8 buf item i j v hd]

/-- Witness of C8: 8-bit access with step 4 and in-step offset 1; indices 0 and 1 are
addressed at bytes 1 and 5, and after writing `0xaa` at index 0 and `0xbb` at index 1
each index reads back its own value. -/
theorem indexed_striding_independent_witness :
    (∃ ri rj buf', __mlxsw_item_offset ⟨0, 4, 1, 0, 0, false, ⟨8, 0⟩⟩ 0 1 = some ri ∧
        __mlxsw_item_offset ⟨0, 4, 1, 0, 0, false, ⟨8, 0⟩⟩ 1 1 = some rj ∧
        Int.natAbs ((ri * 1 : Int) - (rj * 1 : Int))
          = 4 * Int.natAbs (((0 : Nat) : Int) - ((1 : Nat) : Int)) ∧
        (ri * 1 + 1 ≤ rj * 1 ∨ rj * 1 + 1 ≤ ri * 1) ∧
        __mlxsw_item_set8 64 (fun _ => 0) ⟨0, 4, 1, 0, 0, false, ⟨8, 0⟩⟩ 0 0xaa = some buf' ∧
        __mlxsw_item_get8 64 buf' ⟨0, 4, 1, 0, 0, false, ⟨8, 0⟩⟩ 1
          = __mlxsw_item_get8 64 (fun _ => 0) ⟨0, 4, 1, 0, 0, false, ⟨8, 0⟩⟩ 1) ∧
    __mlxsw_item_offset ⟨0, 4, 1, 0, 0, false, ⟨8, 0⟩⟩ 0 1 = some 1 ∧
    __mlxsw_item_offset ⟨0, 4, 1, 0, 0, false, ⟨8, 0⟩⟩ 1 1 = some 5 ∧
    ((__mlxsw_item_set8 64 (fun _ => 0) ⟨0, 4, 1, 0, 0, false, ⟨8, 0⟩⟩ 0 0xaa).bind
      fun b0 => (__mlxsw_item_set8 64 b0 ⟨0, 4, 1, 0, 0, false, ⟨8, 0⟩⟩ 1 0xbb).bind
        fun b1 => some (__mlxsw_item_get8 64 b1 ⟨0, 4, 1, 0, 0, false, ⟨8, 0⟩⟩ 0,
          __mlxsw_item_get8 64 b1 ⟨0, 4, 1, 0, 0, false, ⟨8, 0⟩⟩ 1))
      = some (some 0xaa, some 0xbb) :=
  ⟨(indexed_striding_independent 64 (Or.inr rfl) (fun _ => 0)
      ⟨0, 4, 1, 0, 0, false, ⟨8, 0⟩⟩ 0 1 0xaa (by decide) (by decide) (by decide)).1
      (by decide),
    by decide, by decide, by decide⟩

/-- C9: for each access width `W`, a valid descriptor with `no_real_shift` set and
`shift + bits ≤ W`: `set` succeeds, the following `get` returns
`v & ((2 ^ bits - 1) << shift)`, and bits `shift .. shift + bits - 1` of the storage
unit are the same-positioned bits of `v`. -/
theorem virtual_shift_round_trip (L : Nat) (hL : L = 32 ∨ L = 64) (buf : Buffer)
    (item : mlxsw_item) (index v : Nat) (hs : item.no_real_shift = true) :
    (valid_scalar 8 item index → item.shift + item.size.bits ≤ 8 →
      ∃ buf', __mlxsw_item_set8 L buf item index v = some buf' ∧
        __mlxsw_item_get8 L buf' item index
          = some (v &&& ((2 ^ item.size.bits - 1) <<< item.shift)) ∧
        ∀ j, item.shift ≤ j → j < item.shift + item.size.bits →
          (buf' (byte_pos item index)).val.testBit j = v.testBit j) ∧
    (valid_scalar 16 item index → item.shift + item.size.bits ≤ 16 →
      ∃ buf', __mlxsw_item_set16 L buf item index v = some buf' ∧
        __mlxsw_item_get16 L buf' item index
          = some (v &&& ((2 ^ item.size.bits - 1) <<< item.shift)) ∧
        ∀ j, item.shift ≤ j → j < item.shift + item.size.bits →
          (be_to_cpu (read_obj buf' (byte_pos item index) 2)).testBit j = v.testBit j) ∧
    (valid_scalar 32 item index → item.shift + item.size.bits ≤ 32 →
      ∃ buf', __mlxsw_item_set32 L buf item index v = some buf' ∧
        __mlxsw_item_get32 L buf' item index
          = some (v &&& ((2 ^ item.size.bits - 1) <<< item.shift)) ∧
        ∀ j, item.shift ≤ j → j < item.shift + item.size.bits →
          (be_to_cpu (read_obj buf' (byte_pos item index) 4)).testBit j = v.testBit j) ∧
    (valid_scalar 64 item index → item.shift + item.size.bits ≤ 64 →
      ∃ buf', __mlxsw_item_set64 buf item index v = some buf' ∧
        __mlxsw_item_get64 buf' item index
          = some (v &&& ((2 ^ item.size.bits - 1) <<< item.shift)) ∧
        ∀ j, item.shift ≤ j → j < item.shift + item.size.bits →
          (be_to_cpu (read_obj buf' (byte_pos item index) 8)).testBit j = v.testBit j) := by
  have h32 : 32 ≤ L := by rcases hL with h | h <;> omega
  refine ⟨fun hv hw => ⟨_, set8_valid L h32 buf item index v hv, ?_, ?_⟩,
    fun hv hw => ⟨_, set16_valid L h32 buf item index v hv, ?_,
      fun j h1 h2 => set_buffer_bits_virtual 2 buf item index v j hs hw h1 h2⟩,
    fun hv hw => ⟨_, set32_valid L h32 buf item index v hv, ?_,
      fun j h1 h2 => set_buffer_bits_virtual 4 buf item index v j hs hw h1 h2⟩,
    fun hv hw => ⟨_, set64_valid buf item index v hv, ?_,
      fun j h1 h2 => set_buffer_bits_virtual 8 buf item index v j hs hw h1 h2⟩⟩
  · rw [get8_valid L h32 _ item index hv, get_set_virtual 1 buf item index v hs hw]
  · intro j h1 h2
    have := set_buffer_bits_virtual 1 buf item index v j hs hw h1 h2
    rwa [load1] at this
  · rw [get16_valid L h32 _ item index hv, get_set_virtual 2 buf item index v hs hw]
  · rw [get32_valid L h32 _ item index hv, get_set_virtual 4 buf item index v hs hw]
  · rw [get64_valid _ item index hv, get_set_virtual 8 buf item index v hs hw]

/-- Witness of C9: 8-bit access, 4 bits at shift 4, virtual shift; `0x50` is stored in
bits 4 to 7 of the byte (which then holds `0x5` there) and read back as `0x50`. -/
theorem virtual_shift_round_trip_witness :
    (∃ buf', __mlxsw_item_set8 64 (fun _ => 0) ⟨0, 0, 0, 4, 0, true, ⟨4, 0⟩⟩ 0 0x50
        = some buf' ∧
      __mlxsw_item_get8 64 buf' ⟨0, 0, 0, 4, 0, true, ⟨4, 0⟩⟩ 0
        = some (0x50 &&& ((2 ^ 4 - 1) <<< 4)) ∧
      ∀ j, 4 ≤ j → j < 4 + 4 →
        (buf' (byte_pos ⟨0, 0, 0, 4, 0, true, ⟨4, 0⟩⟩ 0)).val.testBit j
          = (0x50 : Nat).testBit j) ∧
    ((__mlxsw_item_set8 64 (fun _ => 0) ⟨0, 0, 0, 4, 0, true, ⟨4, 0⟩⟩ 0 0x50).bind
      fun b => (__mlxsw_item_get8 64 b ⟨0, 0, 0, 4, 0, true, ⟨4, 0⟩⟩ 0).map
        fun r => (r, (b 0).val >>> 4)) = some (0x50, 0x5) :=
  ⟨(virtual_shift_round_trip 64 (Or.inr rfl) (fun _ => 0)
      ⟨0, 0, 0, 4, 0, true, ⟨4, 0⟩⟩ 0 0x50 rfl).1 (by decide) (by decide),
    by decide⟩

/-! ## Bit arrays: results -/

theorem element_size_cases (item : mlxsw_item) (index : Nat)
    (hv : ¬ bit_array_violation item index) :
    item.element_size = 1 ∨ item.element_size = 2 ∨ item.element_size = 4 ∨
      item.element_size = 8 := by
  unfold bit_array_violation at hv
  push_neg at hv
  have h8 : 8 % item.element_size = 0 := hv.2.2
  have hle : item.element_size ≤ 8 := by
    by_contra h
    rw [Nat.mod_eq_of_lt (by omega)] at h8
    omega
  generalize item.element_size = e at h8 hle
  interval_cases e <;> simp_all

theorem bit_array_checks_pass (item : mlxsw_item) (index : Nat)
    (hv : ¬ bit_array_violation item index) :
    ¬ (index ≠ 0 ∧ item.element_size = 0) ∧ ¬ (item.offset % 4 ≠ 0) ∧
      ¬ (item.element_size = 0) ∧ ¬ (BITS_PER_BYTE % item.element_size ≠ 0) := by
  unfold bit_array_violation at hv
  push_neg at hv
  refine ⟨fun h => hv.1 h.1 h.2, fun h => h hv.2.1, ?_, fun h => h hv.2.2⟩
  intro h
  have h8 := hv.2.2
  rw [h] at h8
  exact absurd h8 (by decide)

theorem bit_array_some_of_valid (item : mlxsw_item) (index : Nat)
    (hv : ¬ bit_array_violation item index) :
    ∃ p, __mlxsw_item_bit_array_offset item index = Except.ok p := by
  obtain ⟨h1, h2, h3, h4⟩ := bit_array_checks_pass item index hv
  unfold __mlxsw_item_bit_array_offset
  rw [if_neg h1, if_neg h2, if_neg h3, if_neg h4]
  exact ⟨_, rfl⟩

/-- Counterexample to C10 as stated: with an extent of 8193 bytes of 1-bit elements
`max_index` wraps in `u16` and index 0 is addressed at byte 0 instead of byte 8192;
with offset 65532 and an extent of 8 one-byte elements the returned `u16` offset
wraps to 3 instead of 65539.  Both descriptors pass the checks and index 0 is in
range. -/
theorem bit_array_offset_counterexample :
    (¬ bit_array_violation ⟨0, 0, 0, 0, 1, false, ⟨0, 8193⟩⟩ 0 ∧
      __mlxsw_item_bit_array_offset ⟨0, 0, 0, 0, 1, false, ⟨0, 8193⟩⟩ 0 = Except.ok (0, 0) ∧
      0 + ((((8193 * 8) / 1 - 1 - 0) * 1) >>> 3) = 8192) ∧
    (¬ bit_array_violation ⟨65532, 0, 0, 0, 8, false, ⟨0, 8⟩⟩ 0 ∧
      __mlxsw_item_bit_array_offset ⟨65532, 0, 0, 0, 8, false, ⟨0, 8⟩⟩ 0 = Except.ok (3, 0) ∧
      65532 + ((((8 * 8) / 8 - 1 - 0) * 8) >>> 3) = 65539) :=
  ⟨⟨by decide, rfl, by decide⟩, ⟨by decide, rfl, by decide⟩⟩

/-- C10 (amended): for a bit-array descriptor that passes the precondition checks,
has at most 65536 elements and an extent that ends within the first 65536 bytes, and
for every index below the number of elements, the offset routine returns byte offset
`offset + (((bytes * 8 / element_size - 1 - index) * element_size) >> 3)` and shift
`(index mod (8 / element_size)) * element_size`, as computed over the naturals. -/
theorem bit_array_offset_exact (item : mlxsw_item) (index : Nat)
    (hv : ¬ bit_array_violation item index)
    (hcount : item.size.bytes * 8 / item.element_size ≤ 65536)
    (hext : item.offset + item.size.bytes ≤ 65536)
    (hidx : index < item.size.bytes * 8 / item.element_size) :
    __mlxsw_item_bit_array_offset item index = Except.ok
      (item.offset +
          (((item.size.bytes * 8 / item.element_size - 1 - index) * item.element_size) >>> 3),
        (index % (8 / item.element_size)) * item.element_size) := by
  obtain ⟨h1, h2, h3, h4⟩ := bit_array_checks_pass item index hv
  have hes := element_size_cases item index hv
  unfold __mlxsw_item_bit_array_offset
  rw [if_neg h1, if_neg h2, if_neg h3, if_neg h4]
  clear h1 h2 h3 h4 hv
  simp only [Nat.shiftLeft_eq, Nat.shiftRight_eq_div_pow, BITS_PER_BYTE]
  generalize item.element_size = e at *
  generalize item.size.bytes = w at *
  generalize item.offset = o at *
  rcases hes with rfl | rfl | rfl | rfl
  · norm_num at *
    omega
  · norm_num at *
    omega
  · norm_num at *
    omega
  · norm_num at *
    omega

/-- Witness of C10 (amended): a 4-byte extent of 2-bit elements at offset 4, index 5,
addressed at byte 6 with shift 2. -/
theorem bit_array_offset_exact_witness :
    __mlxsw_item_bit_array_offset ⟨4, 0, 0, 0, 2, false, ⟨0, 4⟩⟩ 5 = Except.ok
      (4 + (((4 * 8 / 2 - 1 - 5) * 2) >>> 3), (5 % (8 / 2)) * 2) :=
  bit_array_offset_exact ⟨4, 0, 0, 0, 2, false, ⟨0, 4⟩⟩ 5 (by decide) (by decide)
    (by decide) (by decide)


/-! ## Lemmas: the bit-array accessors -/

theorem bit_array_offset_ok_iff (item : mlxsw_item) (index : Nat) :
    (∃ p, __mlxsw_item_bit_array_offset item index = Except.ok p) ↔
      ¬ bit_array_violation item index := by
  constructor
  · rintro ⟨p, hp⟩ hv
    unfold __mlxsw_item_bit_array_offset at hp
    unfold bit_array_violation at hv
    by_cases h1 : index ≠ 0 ∧ item.element_size = 0
    · rw [if_pos h1] at hp; cases hp
    · by_cases h2 : item.offset % 4 ≠ 0
      · rw [if_neg h1, if_pos h2] at hp; cases hp
      · by_cases h3 : item.element_size = 0
        · rw [if_neg h1, if_neg h2, if_pos h3] at hp; cases hp
        · by_cases h4 : BITS_PER_BYTE % item.element_size ≠ 0
          · rw [if_neg h1, if_neg h2, if_neg h3, if_pos h4] at hp; cases hp
          · rcases hv with h | h | h
            · exact h1 h
            · exact h2 h
            · exact h4 h
  · exact bit_array_some_of_valid item index

theorem bit_array_valid_of_ok (item : mlxsw_item) (index : Nat) (p : Nat × Nat)
    (h : __mlxsw_item_bit_array_offset item index = Except.ok p) :
    ¬ bit_array_violation item index :=
  (bit_array_offset_ok_iff item index).1 ⟨p, h⟩

theorem bit_array_offset_fault_iff (item : mlxsw_item) (index : Nat) :
    (__mlxsw_item_bit_array_offset item index = Except.error Fault.div_by_zero ↔
      (index = 0 ∧ item.element_size = 0 ∧ item.offset % 4 = 0)) ∧
    (__mlxsw_item_bit_array_offset item index = Except.error Fault.bug ↔
      ((index ≠ 0 ∧ item.element_size = 0) ∨ item.offset % 4 ≠ 0 ∨
        (item.element_size ≠ 0 ∧ 8 % item.element_size ≠ 0))) := by
  unfold __mlxsw_item_bit_array_offset BITS_PER_BYTE
  by_cases h1 : index ≠ 0 ∧ item.element_size = 0
  · rw [if_pos h1]
    refine ⟨⟨(fun h => by cases h), fun h => absurd h.1 h1.1⟩, ⟨fun _ => Or.inl h1, fun _ => rfl⟩⟩
  · by_cases h2 : item.offset % 4 ≠ 0
    · rw [if_neg h1, if_pos h2]
      refine ⟨⟨(fun h => by cases h), fun h => absurd h.2.2 h2⟩,
        ⟨fun _ => Or.inr (Or.inl h2), fun _ => rfl⟩⟩
    · by_cases h3 : item.element_size = 0
      · rw [if_neg h1, if_neg h2, if_pos h3]
        have h0 : index = 0 := by
          by_contra h; exact h1 ⟨h, h3⟩
        refine ⟨⟨fun _ => ⟨h0, h3, by omega⟩, fun _ => rfl⟩, ⟨(fun h => by cases h), ?_⟩⟩
        rintro (h | h | h)
        · exact absurd h h1
        · exact absurd h h2
        · exact absurd h3 h.1
      · by_cases h4 : 8 % item.element_size ≠ 0
        · rw [if_neg h1, if_neg h2, if_neg h3, if_pos h4]
          refine ⟨⟨(fun h => by cases h), fun h => absurd h.2.1 h3⟩,
            ⟨fun _ => Or.inr (Or.inr ⟨h3, h4⟩), fun _ => rfl⟩⟩
        · rw [if_neg h1, if_neg h2, if_neg h3, if_neg h4]
          refine ⟨⟨(fun h => by cases h), fun h => absurd h.2.1 h3⟩, ⟨(fun h => by cases h), ?_⟩⟩
          rintro (h | h | h)
          · exact absurd h h1
          · exact absurd h h2
          · exact absurd h.2 h4

theorem bit_array_offset_shift (item : mlxsw_item) (index : Nat) (p : Nat × Nat)
    (h : __mlxsw_item_bit_array_offset item index = Except.ok p) :
    1 ≤ item.element_size ∧ item.element_size ≤ 8 ∧ p.2 + item.element_size ≤ 8 ∧
      p.2 = (index % (8 / item.element_size)) * item.element_size := by
  have hv : ¬ bit_array_violation item index := bit_array_valid_of_ok item index p h
  obtain ⟨h1, h2, h3, h4⟩ := bit_array_checks_pass item index hv
  have hes := element_size_cases item index hv
  unfold __mlxsw_item_bit_array_offset at h
  rw [if_neg h1, if_neg h2, if_neg h3, if_neg h4] at h
  simp only [Except.ok.injEq] at h
  rw [← h]
  simp only [BITS_PER_BYTE]
  generalize item.element_size = e at *
  rcases hes with rfl | rfl | rfl | rfl <;> norm_num <;> omega

theorem bit_array_get_eq (L : Nat) (hL : 32 ≤ L) (buf : Buffer) (item : mlxsw_item)
    (index : Nat) (p : Nat × Nat)
    (h : __mlxsw_item_bit_array_offset item index = Except.ok p) :
    __mlxsw_item_bit_array_get L buf item index
      = Except.ok (word_get 8 p.2 false (2 ^ item.element_size - 1) (buf p.1).val) := by
  obtain ⟨h1, h2, _, _⟩ := bit_array_offset_shift item index p h
  unfold __mlxsw_item_bit_array_get
  rw [h, GEN_MASK_low L _ h1 (by omega)]
  rfl

theorem bit_array_set_eq (L : Nat) (hL : 32 ≤ L) (buf : Buffer) (item : mlxsw_item)
    (index val : Nat) (p : Nat × Nat)
    (h : __mlxsw_item_bit_array_offset item index = Except.ok p) :
    __mlxsw_item_bit_array_set L buf item index val
      = Except.ok (bit_set_buffer buf item p val) := by
  obtain ⟨h1, h2, _, _⟩ := bit_array_offset_shift item index p h
  unfold __mlxsw_item_bit_array_set
  rw [h]
  simp only [mask_trunc L 8 _ _ h1 h2 (by omega)]
  rfl

theorem to_u8_val (x : Nat) (h : x < 2 ^ 8) : (to_u8 x).val = x := by
  unfold to_u8
  exact Nat.mod_eq_of_lt h

theorem byte_lt (buf : Buffer) (k : Nat) : (buf k).val < 2 ^ 8 := (buf k).isLt

theorem bit_set_buffer_same (buf : Buffer) (item : mlxsw_item) (p : Nat × Nat) (val : Nat) :
    (bit_set_buffer buf item p val p.1).val
      = word_set 8 p.2 false (field_mask 8 p.2 item.element_size) (buf p.1).val val := by
  unfold bit_set_buffer
  rw [if_pos rfl]
  exact to_u8_val _ (word_set_lt 8 _ _ _ _ _ (byte_lt buf _) (field_mask_lt _ _ _))

theorem bit_set_buffer_other (buf : Buffer) (item : mlxsw_item) (p : Nat × Nat)
    (val k : Nat) (h : k ≠ p.1) : bit_set_buffer buf item p val k = buf k := by
  unfold bit_set_buffer
  rw [if_neg h]

/-- C12: for a bit-array descriptor that passes the precondition checks, every index,
buffer and value: `set` succeeds and the following `get` returns the value masked to
`element_size` bits. -/
theorem bit_array_round_trip (L : Nat) (hL : L = 32 ∨ L = 64) (buf : Buffer)
    (item : mlxsw_item) (index v : Nat) (hv : ¬ bit_array_violation item index) :
    ∃ buf', __mlxsw_item_bit_array_set L buf item index v = Except.ok buf' ∧
      __mlxsw_item_bit_array_get L buf' item index
        = Except.ok (v &&& (2 ^ item.element_size - 1)) := by
  have h32 : 32 ≤ L := by rcases hL with h | h <;> omega
  obtain ⟨p, hp⟩ := bit_array_some_of_valid item index hv
  obtain ⟨h1, h2, h3, _⟩ := bit_array_offset_shift item index p hp
  refine ⟨_, bit_array_set_eq L h32 buf item index v p hp, ?_⟩
  rw [bit_array_get_eq L h32 _ item index p hp, bit_set_buffer_same,
    word_round_trip 8 p.2 item.element_size _ v (byte_lt buf _),
    Nat.and_pow_two_sub_one_eq_mod]
  congr 3
  omega

/-- Witness of C12: 2-bit elements in a 4-byte extent at offset 4, index 5, value
`0xfe` read back as `0x2`. -/
theorem bit_array_round_trip_witness :
    ∃ buf', __mlxsw_item_bit_array_set 64 (fun _ => 0xff) ⟨4, 0, 0, 0, 2, false, ⟨0, 4⟩⟩ 5 0xfe
        = Except.ok buf' ∧
      __mlxsw_item_bit_array_get 64 buf' ⟨4, 0, 0, 0, 2, false, ⟨0, 4⟩⟩ 5
        = Except.ok (0xfe &&& (2 ^ 2 - 1)) :=
  bit_array_round_trip 64 (Or.inr rfl) (fun _ => 0xff) ⟨4, 0, 0, 0, 2, false, ⟨0, 4⟩⟩ 5 0xfe
    (by decide)

theorem bit_array_violation_iff (item : mlxsw_item) (index : Nat) :
    bit_array_violation item index ↔
      (¬ item.element_size ∣ 8 ∨ item.offset % 4 ≠ 0) := by
  unfold bit_array_violation
  rw [Nat.dvd_iff_mod_eq_zero]
  constructor
  · rintro (h | h | h)
    · left; rw [h.2]; decide
    · right; exact h
    · left; exact h
  · rintro (h | h)
    · right; right; exact h
    · right; left; exact h

theorem bit_array_get_error_iff (L : Nat) (buf : Buffer) (item : mlxsw_item)
    (index : Nat) (e : Fault) :
    __mlxsw_item_bit_array_get L buf item index = Except.error e ↔
      __mlxsw_item_bit_array_offset item index = Except.error e := by
  unfold __mlxsw_item_bit_array_get
  cases __mlxsw_item_bit_array_offset item index <;> simp

theorem bit_array_set_error_iff (L : Nat) (buf : Buffer) (item : mlxsw_item)
    (index val : Nat) (e : Fault) :
    __mlxsw_item_bit_array_set L buf item index val = Except.error e ↔
      __mlxsw_item_bit_array_offset item index = Except.error e := by
  unfold __mlxsw_item_bit_array_set
  cases __mlxsw_item_bit_array_offset item index <;> simp

/-- C13 (failing input): a descriptor with `element_size = 0` and an aligned offset,
accessed at index 0.  `BUG_ON(index && !element_size)` lets it through, the offset
test is false, and `BITS_PER_BYTE % element_size` divides by zero: the offset routine,
`get` and `set` end in that fault and not in `BUG_ON` / `BUG()`; the same descriptor
at index 1 stops at `BUG_ON`.  In general the division by zero happens exactly for
`element_size = 0` at index 0 with an offset that is a multiple of 4, and `BUG_ON` /
`BUG()` is reached exactly for `element_size = 0` at a nonzero index, for an offset
that is not a multiple of 4, or for a nonzero `element_size` that does not divide 8;
`get` and `set` end in the fault of their offset call. -/
theorem bit_array_zero_element_size_fault :
    __mlxsw_item_bit_array_offset ⟨4, 0, 0, 0, 0, false, ⟨0, 4⟩⟩ 0
      = Except.error Fault.div_by_zero ∧
    __mlxsw_item_bit_array_get 64 (fun _ => 0) ⟨4, 0, 0, 0, 0, false, ⟨0, 4⟩⟩ 0
      = Except.error Fault.div_by_zero ∧
    __mlxsw_item_bit_array_set 64 (fun _ => 0) ⟨4, 0, 0, 0, 0, false, ⟨0, 4⟩⟩ 0 1
      = Except.error Fault.div_by_zero ∧
    __mlxsw_item_bit_array_offset ⟨4, 0, 0, 0, 0, false, ⟨0, 4⟩⟩ 1
      = Except.error Fault.bug ∧
    (∀ (item : mlxsw_item) (index : Nat),
      __mlxsw_item_bit_array_offset item index = Except.error Fault.div_by_zero ↔
        (index = 0 ∧ item.element_size = 0 ∧ item.offset % 4 = 0)) ∧
    (∀ (item : mlxsw_item) (index : Nat),
      __mlxsw_item_bit_array_offset item index = Except.error Fault.bug ↔
        ((index ≠ 0 ∧ item.element_size = 0) ∨ item.offset % 4 ≠ 0 ∨
          (item.element_size ≠ 0 ∧ 8 % item.element_size ≠ 0))) ∧
    (∀ (L : Nat) (buf : Buffer) (item : mlxsw_item) (index val : Nat) (e : Fault),
      (__mlxsw_item_bit_array_get L buf item index = Except.error e ↔
        __mlxsw_item_bit_array_offset item index = Except.error e) ∧
      (__mlxsw_item_bit_array_set L buf item index val = Except.error e ↔
        __mlxsw_item_bit_array_offset item index = Except.error e)) :=
  ⟨rfl, rfl, rfl, rfl,
    fun item index => (bit_array_offset_fault_iff item index).1,
    fun item index => (bit_array_offset_fault_iff item index).2,
    fun L buf item index val e =>
      ⟨bit_array_get_error_iff L buf item index e,
        bit_array_set_error_iff L buf item index val e⟩⟩

/-! ## Opaque byte ranges: results -/

theorem offset_some_of_valid (item : mlxsw_item) (index n : Nat)
    (hv : ¬ offset_violation item index n) :
    ∃ off, __mlxsw_item_offset item index n = some off := by
  cases h : __mlxsw_item_offset item index n with
  | none => exact absurd ((offset_none_iff item index n).1 h) hv
  | some off => exact ⟨off, rfl⟩

theorem memcpy_inside (dst : Buffer) (d : Nat) (src : Buffer) (s n k : Nat) (hk : k < n) :
    memcpy dst d src s n (d + k) = src (s + k) := by
  unfold memcpy
  rw [if_pos ⟨by omega, by omega⟩]
  congr 1; omega

theorem memcpy_outside (dst : Buffer) (d : Nat) (src : Buffer) (s n k : Nat)
    (hk : k < d ∨ d + n ≤ k) : memcpy dst d src s n k = dst k := by
  unfold memcpy
  rw [if_neg (by omega)]

/-- C14: for an opaque-range descriptor whose offset checks pass at the index, every
buffer, destination and source: `memcpy_to` succeeds, `memcpy_from` on the resulting
buffer succeeds, and the first `size.bytes` bytes of the destination are then exactly
the first `size.bytes` bytes of the source (the rest of the destination is
untouched). -/
theorem opaque_copy_round_trip (buf src dst : Buffer) (item : mlxsw_item) (index : Nat)
    (hv : ¬ offset_violation item index 1) :
    ∃ buf' dst', __mlxsw_item_memcpy_to buf src item index = some buf' ∧
      __mlxsw_item_memcpy_from buf' dst item index = some dst' ∧
      (∀ k, k < item.size.bytes → dst' k = src k) ∧
      (∀ k, item.size.bytes ≤ k → dst' k = dst k) := by
  obtain ⟨off, hoff⟩ := offset_some_of_valid item index 1 hv
  refine ⟨memcpy buf off src 0 item.size.bytes,
    memcpy dst 0 (memcpy buf off src 0 item.size.bytes) off item.size.bytes, ?_, ?_, ?_, ?_⟩
  · unfold __mlxsw_item_memcpy_to; rw [hoff]
  · unfold __mlxsw_item_memcpy_from; rw [hoff]
  · intro k hk
    have h1 := memcpy_inside dst 0 (memcpy buf off src 0 item.size.bytes) off
      item.size.bytes k hk
    have h2 := memcpy_inside buf off src 0 item.size.bytes k hk
    rw [Nat.zero_add] at h1 h2
    rw [h1, h2]
  · intro k hk
    exact memcpy_outside dst 0 _ off item.size.bytes k (Or.inr (by omega))

/-- Witness of C14: a 6-byte range at index 2 of a stride of 8 bytes. -/
theorem opaque_copy_round_trip_witness :
    ∃ buf' dst', __mlxsw_item_memcpy_to (fun _ => 0) (fun k => to_u8 (k + 1))
        ⟨16, 8, 1, 0, 0, false, ⟨0, 6⟩⟩ 2 = some buf' ∧
      __mlxsw_item_memcpy_from buf' (fun _ => 0xee) ⟨16, 8, 1, 0, 0, false, ⟨0, 6⟩⟩ 2
        = some dst' ∧
      (∀ k, k < 6 → dst' k = to_u8 (k + 1)) ∧
      (∀ k, 6 ≤ k → dst' k = 0xee) :=
  opaque_copy_round_trip (fun _ => 0) (fun k => to_u8 (k + 1)) (fun _ => 0xee)
    ⟨16, 8, 1, 0, 0, false, ⟨0, 6⟩⟩ 2 (by decide)

/-- C15: for an opaque-range descriptor with values in the ranges of their C types
whose offset checks pass at a 16-bit index, with `off = offset + step * index +
in_step_offset`: `memcpy_to` succeeds, the bytes `off .. off + size.bytes - 1` of the
result are the first `size.bytes` bytes of the source, every other byte is unchanged,
and `__mlxsw_item_data` returns position `off` of the buffer it is given. -/
theorem opaque_copy_to_frame (buf src : Buffer) (item : mlxsw_item) (index : Nat)
    (hr : item.in_range) (hi : index < 2 ^ 16) (hv : ¬ offset_violation item index 1) :
    ∃ buf', __mlxsw_item_memcpy_to buf src item index = some buf' ∧
      (∀ k, k < item.size.bytes →
        buf' (item.offset + item.step * index + item.in_step_offset + k) = src k) ∧
      (∀ k, k < item.offset + item.step * index + item.in_step_offset ∨
          item.offset + item.step * index + item.in_step_offset + item.size.bytes ≤ k →
        buf' k = buf k) ∧
      __mlxsw_item_data buf item index
        = some (buf, item.offset + item.step * index + item.in_step_offset) ∧
      __mlxsw_item_data buf' item index
        = some (buf', item.offset + item.step * index + item.in_step_offset) := by
  obtain ⟨h1, h2⟩ := offset_some item index 1 hr hi hv
  rw [Nat.div_one] at h1
  refine ⟨memcpy buf (byte_pos item index) src 0 item.size.bytes, ?_, ?_, ?_, ?_, ?_⟩
  · unfold __mlxsw_item_memcpy_to; rw [h1]
  · intro k hk
    have := memcpy_inside buf (byte_pos item index) src 0 item.size.bytes k hk
    rw [Nat.zero_add] at this
    exact this
  · intro k hk
    exact memcpy_outside buf (byte_pos item index) src 0 item.size.bytes k hk
  · unfold __mlxsw_item_data; rw [h1]; rfl
  · unfold __mlxsw_item_data; rw [h1]; rfl

/-- Witness of C15: a 6-byte range at index 2 of a stride of 8 bytes, at byte 33. -/
theorem opaque_copy_to_frame_witness :
    ∃ buf', __mlxsw_item_memcpy_to (fun _ => 0) (fun k => to_u8 (k + 1))
        ⟨16, 8, 1, 0, 0, false, ⟨0, 6⟩⟩ 2 = some buf' ∧
      (∀ k, k < 6 → buf' (16 + 8 * 2 + 1 + k) = to_u8 (k + 1)) ∧
      (∀ k, k < 16 + 8 * 2 + 1 ∨ 16 + 8 * 2 + 1 + 6 ≤ k → buf' k = 0) ∧
      __mlxsw_item_data (fun _ => 0) ⟨16, 8, 1, 0, 0, false, ⟨0, 6⟩⟩ 2
        = some (fun _ => 0, 16 + 8 * 2 + 1) ∧
      __mlxsw_item_data buf' ⟨16, 8, 1, 0, 0, false, ⟨0, 6⟩⟩ 2
        = some (buf', 16 + 8 * 2 + 1) :=
  opaque_copy_to_frame (fun _ => 0) (fun k => to_u8 (k + 1))
    ⟨16, 8, 1, 0, 0, false, ⟨0, 6⟩⟩ 2 (by decide) (by decide) (by decide)

/-! ## Scalar accessors: further results -/

theorem get_set_real_fits (n : Nat) (buf : Buffer) (item : mlxsw_item) (index val : Nat)
    (hs : item.no_real_shift = false) (hw : item.shift + item.size.bits ≤ 8 * n) :
    get_value n (set_buffer n buf item index val) item index
      = val &&& (2 ^ item.size.bits - 1) := by
  rw [get_set_real n buf item index val hs, Nat.and_pow_two_sub_one_eq_mod]
  congr 2
  omega

/-- C18: for each access width `W`, a valid descriptor that shifts for real and whose
bit window fits the storage unit (`shift + bits ≤ W`): `set` succeeds and the
following `get` returns `v & (2 ^ bits - 1)`. -/
theorem scalar_round_trip_fits (L : Nat) (hL : L = 32 ∨ L = 64) (buf : Buffer)
    (item : mlxsw_item) (index v : Nat) (hs : item.no_real_shift = false) :
    (valid_scalar 8 item index → item.shift + item.size.bits ≤ 8 →
      ∃ buf', __mlxsw_item_set8 L buf item index v = some buf' ∧
        __mlxsw_item_get8 L buf' item index = some (v &&& (2 ^ item.size.bits - 1))) ∧
    (valid_scalar 16 item index → item.shift + item.size.bits ≤ 16 →
      ∃ buf', __mlxsw_item_set16 L buf item index v = some buf' ∧
        __mlxsw_item_get16 L buf' item index = some (v &&& (2 ^ item.size.bits - 1))) ∧
    (valid_scalar 32 item index → item.shift + item.size.bits ≤ 32 →
      ∃ buf', __mlxsw_item_set32 L buf item index v = some buf' ∧
        __mlxsw_item_get32 L buf' item index = some (v &&& (2 ^ item.size.bits - 1))) ∧
    (valid_scalar 64 item index → item.shift + item.size.bits ≤ 64 →
      ∃ buf', __mlxsw_item_set64 buf item index v = some buf' ∧
        __mlxsw_item_get64 buf' item index = some (v &&& (2 ^ item.size.bits - 1))) := by
  have h32 : 32 ≤ L := by rcases hL with h | h <;> omega
  refine ⟨fun hv hw => ⟨_, set8_valid L h32 buf item index v hv, ?_⟩,
    fun hv hw => ⟨_, set16_valid L h32 buf item index v hv, ?_⟩,
    fun hv hw => ⟨_, set32_valid L h32 buf item index v hv, ?_⟩,
    fun hv hw => ⟨_, set64_valid buf item index v hv, ?_⟩⟩
  · rw [get8_valid L h32 _ item index hv, get_set_real_fits 1 buf item index v hs hw]
  · rw [get16_valid L h32 _ item index hv, get_set_real_fits 2 buf item index v hs hw]
  · rw [get32_valid L h32 _ item index hv, get_set_real_fits 4 buf item index v hs hw]
  · rw [get64_valid _ item index hv, get_set_real_fits 8 buf item index v hs hw]

/-- Witness of C18: a 20-bit field at shift 12 of a 32-bit unit. -/
theorem scalar_round_trip_fits_witness :
    ∃ buf', __mlxsw_item_set32 32 (fun _ => 0x77) ⟨12, 0, 0, 12, 0, false, ⟨20, 0⟩⟩ 0
        0xfedcba98 = some buf' ∧
      __mlxsw_item_get32 32 buf' ⟨12, 0, 0, 12, 0, false, ⟨20, 0⟩⟩ 0
        = some (0xfedcba98 &&& (2 ^ 20 - 1)) :=
  (scalar_round_trip_fits 32 (Or.inl rfl) (fun _ => 0x77)
    ⟨12, 0, 0, 12, 0, false, ⟨20, 0⟩⟩ 0 0xfedcba98 rfl).2.2.1 (by decide) (by decide)

theorem word_set_get (W s b U : Nat) (nrs : Bool) (hU : U < 2 ^ W) :
    word_set W s nrs (field_mask W s b) U (word_get W s nrs (2 ^ b - 1) U) = U := by
  apply Nat.eq_of_testBit_eq
  intro j
  unfold word_set
  rw [testBit_merge W _ _ _ _ hU (field_mask_lt _ _ _), testBit_field_mask]
  by_cases h1 : j < W
  · by_cases h2 : s ≤ j
    · by_cases h3 : j - s < b
      · have h4 : s + (j - s) = j := by omega
        have h5 : j - s < W := by omega
        cases nrs <;>
          simp [word_get, h1, h2, h3, h4, h5, Nat.testBit_mod_two_pow, Nat.testBit_shiftLeft,
            Nat.testBit_shiftRight, Nat.testBit_two_pow_sub_one]
      · simp [h1, h2, h3]
    · simp [h1, h2]
  · simp [h1]

theorem cpu_to_be_congr (n x y : Nat) (h : ∀ j, j < 8 * n → x.testBit j = y.testBit j) :
    cpu_to_be n x = cpu_to_be n y := by
  induction n with
  | zero => rfl
  | succ n ih =>
    simp only [cpu_to_be]
    rw [ih (fun j hj => h j (by omega))]
    congr 1
    unfold to_u8
    apply Fin.ext
    show (x >>> (8 * n)) % 2 ^ 8 = (y >>> (8 * n)) % 2 ^ 8
    apply Nat.eq_of_testBit_eq
    intro j
    simp only [Nat.testBit_mod_two_pow, Nat.testBit_shiftRight]
    by_cases hj : j < 8
    · rw [h (8 * n + j) (by omega)]
    · simp [hj]

theorem cpu_to_be_be_to_cpu (raw : List (Fin 256)) :
    cpu_to_be raw.length (be_to_cpu raw) = raw := by
  induction raw with
  | nil => rfl
  | cons b rest ih =>
    have hlt := be_to_cpu_lt rest
    have e : (256 : Nat) ^ rest.length = 2 ^ (8 * rest.length) := (two_pow_eight_mul _).symm
    rw [e] at hlt
    simp only [List.length_cons, cpu_to_be, be_to_cpu]
    rw [e, Nat.mul_comm b.val]
    congr 1
    · unfold to_u8
      apply Fin.ext
      show ((2 ^ (8 * rest.length) * b.val + be_to_cpu rest) >>> (8 * rest.length)) % 256 = b.val
      rw [Nat.shiftRight_eq_div_pow, Nat.mul_add_div (Nat.pos_pow_of_pos _ (by decide)),
        Nat.div_eq_of_lt hlt, Nat.add_zero]
      exact Nat.mod_eq_of_lt b.isLt
    · rw [cpu_to_be_congr rest.length _ (be_to_cpu rest) ?_, ih]
      intro j hj
      rw [Nat.testBit_mul_pow_two_add _ hlt, if_pos hj]

theorem write_obj_read_obj (buf : Buffer) (p n : Nat) :
    write_obj buf p (read_obj buf p n) = buf := by
  funext k
  unfold write_obj
  split
  · by_cases h : k - p < n
    · rw [read_obj_getD buf p n (k - p) _ h]
      congr 1; omega
    · rw [List.getD_eq_default]
      rw [read_obj_length]; omega
  · rfl

theorem set_buffer_get_value (n : Nat) (buf : Buffer) (item : mlxsw_item) (index : Nat) :
    set_buffer n buf item index (get_value n buf item index) = buf := by
  unfold set_buffer get_value
  rw [word_set_get _ _ _ _ _ (load_lt _ _ _)]
  have h := cpu_to_be_be_to_cpu (read_obj buf (byte_pos item index) n)
  rw [read_obj_length] at h
  rw [h, write_obj_read_obj]

/-- C19: for each access width and a valid descriptor (either value of
`no_real_shift`, any field of 1 to `W` bits and any shift below `W`): `get` succeeds
and `set` of the value it returns gives back the same buffer. -/
theorem scalar_set_get_identity (L : Nat) (hL : L = 32 ∨ L = 64) (buf : Buffer)
    (item : mlxsw_item) (index : Nat) :
    (valid_scalar 8 item index →
      ∃ g, __mlxsw_item_get8 L buf item index = some g ∧
        __mlxsw_item_set8 L buf item index g = some buf) ∧
    (valid_scalar 16 item index →
      ∃ g, __mlxsw_item_get16 L buf item index = some g ∧
        __mlxsw_item_set16 L buf item index g = some buf) ∧
    (valid_scalar 32 item index →
      ∃ g, __mlxsw_item_get32 L buf item index = some g ∧
        __mlxsw_item_set32 L buf item index g = some buf) ∧
    (valid_scalar 64 item index →
      ∃ g, __mlxsw_item_get64 buf item index = some g ∧
        __mlxsw_item_set64 buf item index g = some buf) := by
  have h32 : 32 ≤ L := by rcases hL with h | h <;> omega
  refine ⟨fun hv => ⟨_, get8_valid L h32 buf item index hv, ?_⟩,
    fun hv => ⟨_, get16_valid L h32 buf item index hv, ?_⟩,
    fun hv => ⟨_, get32_valid L h32 buf item index hv, ?_⟩,
    fun hv => ⟨_, get64_valid buf item index hv, ?_⟩⟩
  · rw [set8_valid L h32 buf item index _ hv, set_buffer_get_value]
  · rw [set16_valid L h32 buf item index _ hv, set_buffer_get_value]
  · rw [set32_valid L h32 buf item index _ hv, set_buffer_get_value]
  · rw [set64_valid buf item index _ hv, set_buffer_get_value]

/-- Witness of C19: a 16-bit unit with a 12-bit field at shift 8, which extends past
the unit, with a virtual shift. -/
theorem scalar_set_get_identity_witness :
    ∃ g, __mlxsw_item_get16 64 (fun k => to_u8 (3 * k + 1)) ⟨2, 4, 0, 8, 0, true, ⟨12, 0⟩⟩ 3
        = some g ∧
      __mlxsw_item_set16 64 (fun k => to_u8 (3 * k + 1)) ⟨2, 4, 0, 8, 0, true, ⟨12, 0⟩⟩ 3 g
        = some (fun k => to_u8 (3 * k + 1)) :=
  (scalar_set_get_identity 64 (Or.inr rfl) (fun k => to_u8 (3 * k + 1))
    ⟨2, 4, 0, 8, 0, true, ⟨12, 0⟩⟩ 3).2.1 (by decide)

/-! ## Mask generation: results -/

theorem testBit_two_pow_sub_two_pow (n l j : Nat) (h : l ≤ n) :
    (2 ^ n - 2 ^ l).testBit j = (decide (l ≤ j) && decide (j < n)) := by
  have hpos : 0 < 2 ^ l := Nat.pos_pow_of_pos _ (by decide)
  have hle : 2 ^ l ≤ 2 ^ n := Nat.pow_le_pow_right (by decide) h
  have e : 2 ^ n - 2 ^ l = 2 ^ n - ((2 ^ l - 1) + 1) := by omega
  rw [e, Nat.testBit_two_pow_sub_succ (by omega), Nat.testBit_two_pow_sub_one]
  by_cases h1 : j < n <;> by_cases h2 : j < l <;> simp [h1, h2]
  all_goals omega

theorem GEN_MASK_range (L h l : Nat) (hl : l ≤ h) (hh : h < L) :
    GEN_MASK L (h : Int) l = 2 ^ (h + 1) - 2 ^ l := by
  have hlt : 2 ^ l < 2 ^ L := Nat.pow_lt_pow_right (by decide) (by omega)
  have hpos : 0 < 2 ^ l := Nat.pos_pow_of_pos _ (by decide)
  have e1 : ((L : Int) - 1 - (h : Int)).toNat = L - 1 - h := by omega
  have e2 : (1 <<< l) % 2 ^ L = 2 ^ l := by
    rw [Nat.one_shiftLeft]; exact Nat.mod_eq_of_lt hlt
  have e3 : (2 ^ L - 1 + 2 ^ L - 2 ^ l) % 2 ^ L = 2 ^ L - 1 - 2 ^ l := by
    have : 2 ^ L - 1 + 2 ^ L - 2 ^ l = (2 ^ L - 1 - 2 ^ l) + 2 ^ L := by omega
    rw [this, Nat.add_mod_right]; exact Nat.mod_eq_of_lt (by omega)
  have e4 : (2 ^ L - 1 - 2 ^ l + 1) % 2 ^ L = 2 ^ L - 2 ^ l := by
    have : 2 ^ L - 1 - 2 ^ l + 1 = 2 ^ L - 2 ^ l := by omega
    rw [this]; exact Nat.mod_eq_of_lt (by omega)
  unfold GEN_MASK
  rw [e1, e2, e3, e4]
  apply Nat.eq_of_testBit_eq
  intro j
  rw [Nat.testBit_and, Nat.testBit_shiftRight, Nat.testBit_two_pow_sub_one,
    testBit_two_pow_sub_two_pow L l j (by omega),
    testBit_two_pow_sub_two_pow (h + 1) l j (by omega)]
  by_cases h1 : l ≤ j <;> by_cases h2 : j < h + 1
  · have h3 : j < L := by omega
    have h4 : L - 1 - h + j < L := by omega
    simp [h1, h2, h3, h4]
  · have h4 : ¬ (L - 1 - h + j < L) := by omega
    simp [h2, h4]
  · simp [h1]
  · simp [h1]

/-- C20: for bit positions `l ≤ h ≤ 63`, `GEN_MASK_ULL(h, l)` is `2 ^ (h + 1) - 2 ^ l`,
the value with exactly bits `l` to `h` set (`GEN_MASK_ULL(39, 21)` is
`0x000000ffffe00000`); the field mask `GEN_MASK(width - 1, 0)` of the 8, 16 and 32 bit
accessors and `GEN_MASK_ULL(width - 1, 0)` of the 64 bit accessors equal
`(1 << width) - 1` for every width from 1 to the word size. -/
theorem gen_mask_value :
    (∀ h l : Nat, l ≤ h → h ≤ 63 →
      GEN_MASK_ULL (h : Int) l = 2 ^ (h + 1) - 2 ^ l ∧
      ∀ j, (GEN_MASK_ULL (h : Int) l).testBit j = (decide (l ≤ j) && decide (j ≤ h))) ∧
    GEN_MASK_ULL 39 21 = 0x000000ffffe00000 ∧
    (∀ L width : Nat, L = 32 ∨ L = 64 → 1 ≤ width → width ≤ L →
      GEN_MASK L ((width : Int) - 1) 0 = (1 <<< width) - 1) ∧
    (∀ width : Nat, 1 ≤ width → width ≤ 64 →
      GEN_MASK_ULL ((width : Int) - 1) 0 = (1 <<< width) - 1) := by
  refine ⟨fun h l hl hh => ?_, by decide, fun L width _ h1 h2 => ?_, fun width h1 h2 => ?_⟩
  · have e : GEN_MASK_ULL (h : Int) l = 2 ^ (h + 1) - 2 ^ l := by
      rw [GEN_MASK_ULL_eq]; exact GEN_MASK_range 64 h l hl (by omega)
    refine ⟨e, fun j => ?_⟩
    rw [e, testBit_two_pow_sub_two_pow (h + 1) l j (by omega)]
    by_cases h1 : j ≤ h
    · have : j < h + 1 := by omega
      simp [h1, this]
    · have : ¬ j < h + 1 := by omega
      simp [h1, this]
  · rw [GEN_MASK_low L width h1 h2, Nat.one_shiftLeft]
  · rw [GEN_MASK_ULL_eq, GEN_MASK_low 64 width h1 h2, Nat.one_shiftLeft]

/-- Witness of C20: the mask of bits 4 to 11, and the field mask of a 12-bit field. -/
theorem gen_mask_value_witness :
    (GEN_MASK_ULL ((11 : Nat) : Int) 4 = 2 ^ (11 + 1) - 2 ^ 4 ∧
      ∀ j, (GEN_MASK_ULL ((11 : Nat) : Int) 4).testBit j
        = (decide (4 ≤ j) && decide (j ≤ 11))) ∧
    GEN_MASK 32 (((12 : Nat) : Int) - 1) 0 = (1 <<< 12) - 1 :=
  ⟨gen_mask_value.1 11 4 (by decide) (by decide),
    gen_mask_value.2.2.1 32 12 (Or.inl rfl) (by decide) (by decide)⟩

/-! ## Lemmas: slots of a bit array -/

theorem bit_array_slot_inside (item : mlxsw_item) (index : Nat) (p : Nat × Nat)
    (h : __mlxsw_item_bit_array_offset item index = Except.ok p)
    (hext : item.offset + item.size.bytes ≤ 65536)
    (hidx : index < item.size.bytes * 8 / item.element_size) (hi : index < 2 ^ 16) :
    item.offset ≤ p.1 ∧ p.1 < item.offset + item.size.bytes := by
  have hv : ¬ bit_array_violation item index := bit_array_valid_of_ok item index p h
  obtain ⟨h1, h2, h3, h4⟩ := bit_array_checks_pass item index hv
  have hes := element_size_cases item index hv
  unfold __mlxsw_item_bit_array_offset at h
  rw [if_neg h1, if_neg h2, if_neg h3, if_neg h4] at h
  simp only [Except.ok.injEq] at h
  rw [← h]
  simp only [BITS_PER_BYTE, Nat.shiftLeft_eq, Nat.shiftRight_eq_div_pow]
  clear h h1 h2 h3 h4 hv
  generalize item.element_size = e at *
  generalize item.size.bytes = w at *
  generalize item.offset = o at *
  rcases hes with rfl | rfl | rfl | rfl <;> omega

theorem slot_core (e w o i j : Nat) (hi : i < 2 ^ 16) (hj : j < 2 ^ 16) (hij : i ≠ j)
    (he : e = 1 ∨ e = 2 ∨ e = 4 ∨ e = 8) :
    (o + (((((((w * 2 ^ 3 : Nat) : Int) / (e : Int) - 1) % 2 ^ 16).toNat : Int) - (i : Int)) % 2 ^ 16).toNat * e / 2 ^ 3 % 2 ^ 16) % 2 ^ 16 ≠
      (o + (((((((w * 2 ^ 3 : Nat) : Int) / (e : Int) - 1) % 2 ^ 16).toNat : Int) - (j : Int)) % 2 ^ 16).toNat * e / 2 ^ 3 % 2 ^ 16) % 2 ^ 16 ∨
    i % (8 / e) % 2 ^ 8 * e % 2 ^ 8 + e ≤ j % (8 / e) % 2 ^ 8 * e % 2 ^ 8 ∨
      j % (8 / e) % 2 ^ 8 * e % 2 ^ 8 + e ≤ i % (8 / e) % 2 ^ 8 * e % 2 ^ 8 := by
  rcases he with rfl | rfl | rfl | rfl
  · generalize hM : ((((w * 2 ^ 3 : Nat) : Int) / ((1 : Nat) : Int) - 1) % 2 ^ 16).toNat = M
    have hM1 : M < 65536 ∧ M % 8 = 7 := by omega
    clear hM
    generalize hbi : (((M : Int) - (i : Int)) % 2 ^ 16).toNat = bi
    generalize hbj : (((M : Int) - (j : Int)) % 2 ^ 16).toNat = bj
    have hi1 : bi < 65536 ∧ bi % 8 = 7 - i % 8 ∧ (bi + i = M ∨ bi + i = M + 65536) := by omega
    have hj1 : bj < 65536 ∧ bj % 8 = 7 - j % 8 ∧ (bj + j = M ∨ bj + j = M + 65536) := by omega
    clear hbi hbj
    omega
  · generalize hM : ((((w * 2 ^ 3 : Nat) : Int) / ((2 : Nat) : Int) - 1) % 2 ^ 16).toNat = M
    have hM1 : M < 65536 ∧ M % 4 = 3 := by omega
    clear hM
    generalize hbi : (((M : Int) - (i : Int)) % 2 ^ 16).toNat = bi
    generalize hbj : (((M : Int) - (j : Int)) % 2 ^ 16).toNat = bj
    have hi1 : bi < 65536 ∧ bi % 4 = 3 - i % 4 ∧ (bi + i = M ∨ bi + i = M + 65536) := by omega
    have hj1 : bj < 65536 ∧ bj % 4 = 3 - j % 4 ∧ (bj + j = M ∨ bj + j = M + 65536) := by omega
    clear hbi hbj
    omega
  · generalize hM : ((((w * 2 ^ 3 : Nat) : Int) / ((4 : Nat) : Int) - 1) % 2 ^ 16).toNat = M
    have hM1 : M < 65536 ∧ M % 2 = 1 := by omega
    clear hM
    generalize hbi : (((M : Int) - (i : Int)) % 2 ^ 16).toNat = bi
    generalize hbj : (((M : Int) - (j : Int)) % 2 ^ 16).toNat = bj
    have hi1 : bi < 65536 ∧ bi % 2 = 1 - i % 2 ∧ (bi + i = M ∨ bi + i = M + 65536) := by omega
    have hj1 : bj < 65536 ∧ bj % 2 = 1 - j % 2 ∧ (bj + j = M ∨ bj + j = M + 65536) := by omega
    clear hbi hbj
    omega
  · generalize hM : ((((w * 2 ^ 3 : Nat) : Int) / ((8 : Nat) : Int) - 1) % 2 ^ 16).toNat = M
    have hM1 : M < 65536 := by omega
    clear hM
    generalize hbi : (((M : Int) - (i : Int)) % 2 ^ 16).toNat = bi
    generalize hbj : (((M : Int) - (j : Int)) % 2 ^ 16).toNat = bj
    have hi1 : bi < 65536 ∧ (bi + i = M ∨ bi + i = M + 65536) := by omega
    have hj1 : bj < 65536 ∧ (bj + j = M ∨ bj + j = M + 65536) := by omega
    clear hbi hbj
    simp only [Nat.div_self (show 0 < 8 by decide), Nat.mod_one, Nat.zero_mod, Nat.zero_mul]
    have ei : bi * 8 / 2 ^ 3 % 2 ^ 16 = bi := by omega
    have ej : bj * 8 / 2 ^ 3 % 2 ^ 16 = bj := by omega
    rw [ei, ej]
    left
    omega

theorem bit_array_slot_distinct (item : mlxsw_item) (i j : Nat) (pi pj : Nat × Nat)
    (hpi : __mlxsw_item_bit_array_offset item i = Except.ok pi)
    (hpj : __mlxsw_item_bit_array_offset item j = Except.ok pj)
    (hi : i < 2 ^ 16) (hj : j < 2 ^ 16) (hij : i ≠ j) :
    pi.1 ≠ pj.1 ∨ pi.2 + item.element_size ≤ pj.2 ∨ pj.2 + item.element_size ≤ pi.2 := by
  have hvi : ¬ bit_array_violation item i := bit_array_valid_of_ok item i pi hpi
  have hvj : ¬ bit_array_violation item j := bit_array_valid_of_ok item j pj hpj
  obtain ⟨a1, a2, a3, a4⟩ := bit_array_checks_pass item i hvi
  obtain ⟨b1, b2, b3, b4⟩ := bit_array_checks_pass item j hvj
  have hes := element_size_cases item i hvi
  unfold __mlxsw_item_bit_array_offset at hpi hpj
  rw [if_neg a1, if_neg a2, if_neg a3, if_neg a4] at hpi
  rw [if_neg b1, if_neg b2, if_neg b3, if_neg b4] at hpj
  simp only [Except.ok.injEq] at hpi hpj
  rw [← hpi, ← hpj]
  simp only [BITS_PER_BYTE, Nat.shiftLeft_eq, Nat.shiftRight_eq_div_pow]
  exact slot_core item.element_size item.size.bytes item.offset i j hi hj hij hes

theorem bit_array_slot_value (item : mlxsw_item) (index : Nat) (p : Nat × Nat)
    (h : __mlxsw_item_bit_array_offset item index = Except.ok p)
    (hcount : item.size.bytes * 8 / item.element_size ≤ 65536)
    (hext : item.offset + item.size.bytes ≤ 65536)
    (hidx : index < item.size.bytes * 8 / item.element_size) :
    index * item.element_size / 8 < item.size.bytes ∧
    p.1 = item.offset + (item.size.bytes - 1 - index * item.element_size / 8) ∧
    index * item.element_size = 8 * (index * item.element_size / 8) + p.2 := by
  have hv : ¬ bit_array_violation item index := bit_array_valid_of_ok item index p h
  obtain ⟨h1, h2, h3, h4⟩ := bit_array_checks_pass item index hv
  have hes := element_size_cases item index hv
  unfold __mlxsw_item_bit_array_offset at h
  rw [if_neg h1, if_neg h2, if_neg h3, if_neg h4] at h
  simp only [Except.ok.injEq] at h
  rw [← h]
  simp only [BITS_PER_BYTE, Nat.shiftLeft_eq, Nat.shiftRight_eq_div_pow]
  clear h h1 h2 h3 h4 hv
  generalize item.element_size = e at *
  generalize item.size.bytes = w at *
  generalize item.offset = o at *
  rcases hes with rfl | rfl | rfl | rfl <;> omega

theorem be_byte (buf : Buffer) (a n k : Nat) (hk : k < n) :
    (be_to_cpu (read_obj buf a n) >>> (8 * (n - 1 - k))) % 2 ^ 8 = (buf (a + k)).val := by
  have h := cpu_to_be_be_to_cpu (read_obj buf a n)
  rw [read_obj_length] at h
  have h2 := cpu_to_be_getD n (be_to_cpu (read_obj buf a n)) k (buf 0) hk
  rw [h, read_obj_getD buf a n k _ hk] at h2
  rw [h2]
  rfl

theorem low_window (X s b : Nat) (h : s + b ≤ 8) :
    ((X % 2 ^ 8) >>> s) &&& (2 ^ b - 1) = (X >>> s) &&& (2 ^ b - 1) := by
  apply Nat.eq_of_testBit_eq
  intro j
  simp only [Nat.testBit_and, Nat.testBit_shiftRight, Nat.testBit_mod_two_pow,
    Nat.testBit_two_pow_sub_one]
  by_cases hj : j < b
  · have : s + j < 8 := by omega
    simp [hj, this]
  · simp [hj]

theorem word_get_real (s b U : Nat) (hU : U < 2 ^ 8) :
    word_get 8 s false (2 ^ b - 1) U = (U >>> s) &&& (2 ^ b - 1) := by
  rw [word_get_reference 8 s b U false hU]
  rfl

/-! ## Bit arrays: further results -/

/-- C16: for a bit-array descriptor that passes the precondition checks, with
`offset + size.bytes ≤ 65536` and at most 65536 elements, and every index below the
number of elements: the addressed byte lies inside the extent and `get` returns
`(V >> (index * element_size)) & (2 ^ element_size - 1)`, where `V` is the value of
the `size.bytes` bytes of the extent read most significant byte first. -/
theorem bit_array_big_endian_vector (L : Nat) (hL : L = 32 ∨ L = 64) (buf : Buffer)
    (item : mlxsw_item) (index : Nat) (hv : ¬ bit_array_violation item index)
    (hcount : item.size.bytes * 8 / item.element_size ≤ 65536)
    (hext : item.offset + item.size.bytes ≤ 65536)
    (hidx : index < item.size.bytes * 8 / item.element_size) :
    (∃ p, __mlxsw_item_bit_array_offset item index = Except.ok p ∧
      item.offset ≤ p.1 ∧ p.1 < item.offset + item.size.bytes) ∧
    __mlxsw_item_bit_array_get L buf item index = Except.ok
      ((be_to_cpu (read_obj buf item.offset item.size.bytes)
          >>> (index * item.element_size)) &&& (2 ^ item.element_size - 1)) := by
  have h32 : 32 ≤ L := by rcases hL with h | h <;> omega
  obtain ⟨p, hp⟩ := bit_array_some_of_valid item index hv
  obtain ⟨hq, hp1, hp2⟩ := bit_array_slot_value item index p hp hcount hext hidx
  obtain ⟨_, _, hs, _⟩ := bit_array_offset_shift item index p hp
  refine ⟨⟨p, hp, by omega, by omega⟩, ?_⟩
  rw [bit_array_get_eq L h32 buf item index p hp, word_get_real _ _ _ (byte_lt buf _)]
  congr 1
  have hb := be_byte buf item.offset item.size.bytes
    (item.size.bytes - 1 - index * item.element_size / 8) (by omega)
  have e : item.size.bytes - 1 - (item.size.bytes - 1 - index * item.element_size / 8)
      = index * item.element_size / 8 := by omega
  rw [e] at hb
  rw [hp1, ← hb, low_window _ _ _ hs, ← Nat.shiftRight_add, ← hp2]

/-- Witness of C16: 2-bit elements in a 4-byte extent at offset 4, index 5. -/
theorem bit_array_big_endian_vector_witness :
    (∃ p, __mlxsw_item_bit_array_offset ⟨4, 0, 0, 0, 2, false, ⟨0, 4⟩⟩ 5 = Except.ok p ∧
      4 ≤ p.1 ∧ p.1 < 4 + 4) ∧
    __mlxsw_item_bit_array_get 64 (fun k => to_u8 (37 * k)) ⟨4, 0, 0, 0, 2, false, ⟨0, 4⟩⟩ 5
      = Except.ok ((be_to_cpu (read_obj (fun k => to_u8 (37 * k)) 4 4) >>> (5 * 2))
          &&& (2 ^ 2 - 1)) :=
  bit_array_big_endian_vector 64 (Or.inr rfl) (fun k => to_u8 (37 * k))
    ⟨4, 0, 0, 0, 2, false, ⟨0, 4⟩⟩ 5 (by decide) (by decide) (by decide) (by decide)

theorem word_get_other_window (W s t b U v : Nat) (hU : U < 2 ^ W)
    (hd : s + b ≤ t ∨ t + b ≤ s) :
    word_get W t false (2 ^ b - 1) (word_set W s false (field_mask W s b) U v)
      = word_get W t false (2 ^ b - 1) U := by
  apply Nat.eq_of_testBit_eq
  intro j
  simp only [word_get, word_set, Bool.not_false, if_true, Bool.false_eq_true, if_false]
  rw [Nat.testBit_mod_two_pow, Nat.testBit_and, Nat.testBit_mod_two_pow, Nat.testBit_shiftRight,
    testBit_merge W _ _ _ _ hU (field_mask_lt W s b), testBit_field_mask,
    Nat.testBit_two_pow_sub_one]
  simp only [Nat.testBit_mod_two_pow, Nat.testBit_and, Nat.testBit_shiftRight,
    Nat.testBit_two_pow_sub_one]
  by_cases h1 : j < b
  · have h2 : ¬ (s ≤ t + j ∧ t + j - s < b) := by omega
    have h3 : (decide (s ≤ t + j) && decide (t + j - s < b)) = false := by
      simpa using h2
    rw [h3]
    simp
  · simp [h1]

theorem bit_array_get_after_set_same (L : Nat) (hL : 32 ≤ L) (buf : Buffer)
    (item : mlxsw_item) (i v : Nat) (p : Nat × Nat)
    (hp : __mlxsw_item_bit_array_offset item i = Except.ok p) :
    __mlxsw_item_bit_array_get L (bit_set_buffer buf item p v) item i
      = Except.ok (v &&& (2 ^ item.element_size - 1)) := by
  obtain ⟨h1, h2, h3, _⟩ := bit_array_offset_shift item i p hp
  rw [bit_array_get_eq L hL _ item i p hp, bit_set_buffer_same,
    word_round_trip 8 p.2 item.element_size _ v (byte_lt buf _),
    Nat.and_pow_two_sub_one_eq_mod]
  congr 3
  omega

theorem bit_array_get_after_set_other (L : Nat) (hL : 32 ≤ L) (buf : Buffer)
    (item : mlxsw_item) (i j v : Nat) (pi pj : Nat × Nat)
    (hpi : __mlxsw_item_bit_array_offset item i = Except.ok pi)
    (hpj : __mlxsw_item_bit_array_offset item j = Except.ok pj)
    (hi : i < 2 ^ 16) (hj : j < 2 ^ 16) (hij : i ≠ j) :
    __mlxsw_item_bit_array_get L (bit_set_buffer buf item pi v) item j
      = __mlxsw_item_bit_array_get L buf item j := by
  rw [bit_array_get_eq L hL _ item j pj hpj, bit_array_get_eq L hL buf item j pj hpj]
  by_cases h : pj.1 = pi.1
  · have hd := bit_array_slot_distinct item i j pi pj hpi hpj hi hj hij
    have hd2 : pi.2 + item.element_size ≤ pj.2 ∨ pj.2 + item.element_size ≤ pi.2 := by
      rcases hd with hd | hd
      · exact absurd h.symm hd
      · exact hd
    rw [h, bit_set_buffer_same, word_get_other_window 8 _ _ _ _ _ (byte_lt buf _) hd2]
  · rw [bit_set_buffer_other buf item pi v pj.1 h]

/-- Counterexample to C17 as stated: with offset 65532 and an extent of 8 one-byte
elements (the checks pass, index 0 is in range) the returned `u16` offset wraps and
`set` at index 0 writes byte 3, which lies outside the extent 65532 .. 65539. -/
theorem bit_array_set_frame_counterexample :
    ¬ bit_array_violation ⟨65532, 0, 0, 0, 8, false, ⟨0, 8⟩⟩ 0 ∧
    0 < 8 * 8 / 8 ∧
    (3 < 65532 ∨ 65532 + 8 ≤ 3) ∧
    ((__mlxsw_item_bit_array_set 64 (fun _ => 0) ⟨65532, 0, 0, 0, 8, false, ⟨0, 8⟩⟩ 0 0xab).map
      fun buf' => (buf' 3).val) = Except.ok 0xab :=
  ⟨by decide, by decide, by decide, rfl⟩

/-- C17 (amended): for a bit-array descriptor that passes the precondition checks and
whose extent ends within the first 65536 bytes (`offset + size.bytes ≤ 65536`), and
an in-range 16-bit index `i`: `set` at `i` succeeds, every other in-range 16-bit
index `j` is read by `get` with the same result as before, and every byte outside
the extent `offset .. offset + size.bytes - 1` is unchanged. -/
theorem bit_array_set_frame (L : Nat) (hL : L = 32 ∨ L = 64) (buf : Buffer)
    (item : mlxsw_item) (i v : Nat) (hv : ¬ bit_array_violation item i)
    (hext : item.offset + item.size.bytes ≤ 65536)
    (hi : i < item.size.bytes * 8 / item.element_size) (hi16 : i < 2 ^ 16) :
    ∃ buf', __mlxsw_item_bit_array_set L buf item i v = Except.ok buf' ∧
      (∀ j, j < item.size.bytes * 8 / item.element_size → j < 2 ^ 16 → j ≠ i →
        ∃ g, __mlxsw_item_bit_array_get L buf item j = Except.ok g ∧
          __mlxsw_item_bit_array_get L buf' item j = Except.ok g) ∧
      (∀ k, k < item.offset ∨ item.offset + item.size.bytes ≤ k → buf' k = buf k) := by
  have h32 : 32 ≤ L := by rcases hL with h | h <;> omega
  obtain ⟨pi, hpi⟩ := bit_array_some_of_valid item i hv
  refine ⟨_, bit_array_set_eq L h32 buf item i v pi hpi, ?_, ?_⟩
  · intro j _ hj16 hji
    have hvj : ¬ bit_array_violation item j := by
      rw [bit_array_violation_iff] at hv ⊢
      exact hv
    obtain ⟨pj, hpj⟩ := bit_array_some_of_valid item j hvj
    refine ⟨_, bit_array_get_eq L h32 buf item j pj hpj, ?_⟩
    rw [bit_array_get_after_set_other L h32 buf item i j v pi pj hpi hpj hi16 hj16
      (fun h => hji h.symm)]
    exact bit_array_get_eq L h32 buf item j pj hpj
  · intro k hk
    obtain ⟨h1, h2⟩ := bit_array_slot_inside item i pi hpi hext hi hi16
    exact bit_set_buffer_other buf item pi v k (by omega)

/-- Witness of C17 (amended): 2-bit elements in a 4-byte extent at offset 4, set at
index 5. -/
theorem bit_array_set_frame_witness :
    ∃ buf', __mlxsw_item_bit_array_set 64 (fun _ => 0xff) ⟨4, 0, 0, 0, 2, false, ⟨0, 4⟩⟩ 5 1
        = Except.ok buf' ∧
      (∀ j, j < 4 * 8 / 2 → j < 2 ^ 16 → j ≠ 5 →
        ∃ g, __mlxsw_item_bit_array_get 64 (fun _ => 0xff) ⟨4, 0, 0, 0, 2, false, ⟨0, 4⟩⟩ j
            = Except.ok g ∧
          __mlxsw_item_bit_array_get 64 buf' ⟨4, 0, 0, 0, 2, false, ⟨0, 4⟩⟩ j = Except.ok g) ∧
      (∀ k, k < 4 ∨ 4 + 4 ≤ k → buf' k = 0xff) :=
  bit_array_set_frame 64 (Or.inr rfl) (fun _ => 0xff) ⟨4, 0, 0, 0, 2, false, ⟨0, 4⟩⟩ 5 1
    (by decide) (by decide) (by decide) (by decide)

theorem one_byte_slot (item : mlxsw_item) (k : Nat) (p : Nat × Nat)
    (hes : item.element_size = 2) (hb : item.size.bytes = 1) (ho : item.offset < 2 ^ 16)
    (hk : k < 4) (hp : __mlxsw_item_bit_array_offset item k = Except.ok p) :
    p = (item.offset, 2 * k) := by
  obtain ⟨h1, h2, h3⟩ := bit_array_slot_value item k p hp
    (by rw [hes, hb]; decide) (by rw [hb]; omega) (by rw [hes, hb]; exact hk)
  simp only [hes, hb] at h1 h2 h3
  apply Prod.ext
  · show p.1 = item.offset
    omega
  · show p.2 = 2 * k
    omega

theorem bit_array_raw_bits (L : Nat) (hL : 32 ≤ L) (buf : Buffer) (item : mlxsw_item)
    (k : Nat) (p : Nat × Nat) (hp : __mlxsw_item_bit_array_offset item k = Except.ok p) :
    __mlxsw_item_bit_array_get L buf item k
      = Except.ok (((buf p.1).val >>> p.2) &&& (2 ^ item.element_size - 1)) := by
  rw [bit_array_get_eq L hL buf item k p hp, word_get_real _ _ _ (byte_lt buf _)]

/-- Counterexample to C11 as stated: 2-bit elements in a 1-byte extent of a zero
buffer; after writing 1, 2, 3, 0 at indices 0 to 3 the raw byte is `0x39`, whose bits
7..6 are 0 (the value written at index 3), not `1 & 3`. -/
theorem bit_array_reversal_counterexample :
    ((__mlxsw_item_bit_array_set 64 (fun _ => 0) ⟨0, 0, 0, 0, 2, false, ⟨0, 1⟩⟩ 0 1).bind
      fun b1 => (__mlxsw_item_bit_array_set 64 b1 ⟨0, 0, 0, 0, 2, false, ⟨0, 1⟩⟩ 1 2).bind
        fun b2 => (__mlxsw_item_bit_array_set 64 b2 ⟨0, 0, 0, 0, 2, false, ⟨0, 1⟩⟩ 2 3).bind
          fun b3 => (__mlxsw_item_bit_array_set 64 b3 ⟨0, 0, 0, 0, 2, false, ⟨0, 1⟩⟩ 3 0).map
            fun b4 => ((b4 0).val, (b4 0).val >>> 6)) = Except.ok (0x39, 0) ∧
    1 &&& 3 = 1 :=
  ⟨rfl, by decide⟩

/-- C11 (amended): for a bit-array descriptor with an extent of 1 byte and
`element_size = 2` whose checks pass, after writing `v0 .. v3` at indices 0 to 3 into
any buffer, the element at index `k` occupies bits `2k+1 .. 2k` of the byte at
`offset`: index 0 the least significant 2 bits (bits 1..0 equal `v0 & 3`) and index 3
the most significant (bits 7..6 equal `v3 & 3`). -/
theorem bit_array_one_byte_layout (L : Nat) (hL : L = 32 ∨ L = 64) (buf : Buffer)
    (item : mlxsw_item) (v0 v1 v2 v3 : Nat)
    (hes : item.element_size = 2) (hb : item.size.bytes = 1)
    (ha : item.offset % 4 = 0) (ho : item.offset < 2 ^ 16) :
    ∃ b1 b2 b3 b4,
      __mlxsw_item_bit_array_set L buf item 0 v0 = Except.ok b1 ∧
      __mlxsw_item_bit_array_set L b1 item 1 v1 = Except.ok b2 ∧
      __mlxsw_item_bit_array_set L b2 item 2 v2 = Except.ok b3 ∧
      __mlxsw_item_bit_array_set L b3 item 3 v3 = Except.ok b4 ∧
      ((b4 item.offset).val >>> 0) &&& 3 = v0 &&& 3 ∧
      ((b4 item.offset).val >>> 2) &&& 3 = v1 &&& 3 ∧
      ((b4 item.offset).val >>> 4) &&& 3 = v2 &&& 3 ∧
      ((b4 item.offset).val >>> 6) &&& 3 = v3 &&& 3 := by
  have h32 : 32 ≤ L := by rcases hL with h | h <;> omega
  have hv : ∀ k, ¬ bit_array_violation item k := by
    intro k
    rw [bit_array_violation_iff, hes]
    rintro (h | h)
    · exact h (by decide)
    · exact h ha
  obtain ⟨p0, hp0⟩ := bit_array_some_of_valid item 0 (hv 0)
  obtain ⟨p1, hp1⟩ := bit_array_some_of_valid item 1 (hv 1)
  obtain ⟨p2, hp2⟩ := bit_array_some_of_valid item 2 (hv 2)
  obtain ⟨p3, hp3⟩ := bit_array_some_of_valid item 3 (hv 3)
  have e0 := one_byte_slot item 0 p0 hes hb ho (by decide) hp0
  have e1 := one_byte_slot item 1 p1 hes hb ho (by decide) hp1
  have e2 := one_byte_slot item 2 p2 hes hb ho (by decide) hp2
  have e3 := one_byte_slot item 3 p3 hes hb ho (by decide) hp3
  refine ⟨_, _, _, _, bit_array_set_eq L h32 buf item 0 v0 p0 hp0,
    bit_array_set_eq L h32 _ item 1 v1 p1 hp1, bit_array_set_eq L h32 _ item 2 v2 p2 hp2,
    bit_array_set_eq L h32 _ item 3 v3 p3 hp3, ?_, ?_, ?_, ?_⟩
  · have h := bit_array_raw_bits L h32
      (bit_set_buffer (bit_set_buffer (bit_set_buffer (bit_set_buffer buf item p0 v0)
        item p1 v1) item p2 v2) item p3 v3) item 0 p0 hp0
    rw [bit_array_get_after_set_other L h32 _ item 3 0 v3 p3 p0 hp3 hp0 (by decide) (by decide)
        (by decide),
      bit_array_get_after_set_other L h32 _ item 2 0 v2 p2 p0 hp2 hp0 (by decide) (by decide)
        (by decide),
      bit_array_get_after_set_other L h32 _ item 1 0 v1 p1 p0 hp1 hp0 (by decide) (by decide)
        (by decide),
      bit_array_get_after_set_same L h32 buf item 0 v0 p0 hp0, hes] at h
    have a1 : p0.1 = item.offset := by rw [e0]
    have a2 : p0.2 = 0 := by rw [e0]
    rw [a1, a2] at h
    exact (Except.ok.inj h).symm
  · have h := bit_array_raw_bits L h32
      (bit_set_buffer (bit_set_buffer (bit_set_buffer (bit_set_buffer buf item p0 v0)
        item p1 v1) item p2 v2) item p3 v3) item 1 p1 hp1
    rw [bit_array_get_after_set_other L h32 _ item 3 1 v3 p3 p1 hp3 hp1 (by decide) (by decide)
        (by decide),
      bit_array_get_after_set_other L h32 _ item 2 1 v2 p2 p1 hp2 hp1 (by decide) (by decide)
        (by decide),
      bit_array_get_after_set_same L h32 _ item 1 v1 p1 hp1, hes] at h
    have a1 : p1.1 = item.offset := by rw [e1]
    have a2 : p1.2 = 2 := by rw [e1]
    rw [a1, a2] at h
    exact (Except.ok.inj h).symm
  · have h := bit_array_raw_bits L h32
      (bit_set_buffer (bit_set_buffer (bit_set_buffer (bit_set_buffer buf item p0 v0)
        item p1 v1) item p2 v2) item p3 v3) item 2 p2 hp2
    rw [bit_array_get_after_set_other L h32 _ item 3 2 v3 p3 p2 hp3 hp2 (by decide) (by decide)
        (by decide),
      bit_array_get_after_set_same L h32 _ item 2 v2 p2 hp2, hes] at h
    have a1 : p2.1 = item.offset := by rw [e2]
    have a2 : p2.2 = 4 := by rw [e2]
    rw [a1, a2] at h
    exact (Except.ok.inj h).symm
  · have h := bit_array_raw_bits L h32
      (bit_set_buffer (bit_set_buffer (bit_set_buffer (bit_set_buffer buf item p0 v0)
        item p1 v1) item p2 v2) item p3 v3) item 3 p3 hp3
    rw [bit_array_get_after_set_same L h32 _ item 3 v3 p3 hp3, hes] at h
    have a1 : p3.1 = item.offset := by rw [e3]
    have a2 : p3.2 = 6 := by rw [e3]
    rw [a1, a2] at h
    exact (Except.ok.inj h).symm

/-- Witness of C11 (amended): the values 1, 2, 3, 0 written at indices 0 to 3 of a
1-byte extent at offset 8. -/
theorem bit_array_one_byte_layout_witness :
    ∃ b1 b2 b3 b4,
      __mlxsw_item_bit_array_set 64 (fun _ => 0xff) ⟨8, 0, 0, 0, 2, false, ⟨0, 1⟩⟩ 0 1
        = Except.ok b1 ∧
      __mlxsw_item_bit_array_set 64 b1 ⟨8, 0, 0, 0, 2, false, ⟨0, 1⟩⟩ 1 2 = Except.ok b2 ∧
      __mlxsw_item_bit_array_set 64 b2 ⟨8, 0, 0, 0, 2, false, ⟨0, 1⟩⟩ 2 3 = Except.ok b3 ∧
      __mlxsw_item_bit_array_set 64 b3 ⟨8, 0, 0, 0, 2, false, ⟨0, 1⟩⟩ 3 0 = Except.ok b4 ∧
      ((b4 8).val >>> 0) &&& 3 = 1 &&& 3 ∧
      ((b4 8).val >>> 2) &&& 3 = 2 &&& 3 ∧
      ((b4 8).val >>> 4) &&& 3 = 3 &&& 3 ∧
      ((b4 8).val >>> 6) &&& 3 = 0 &&& 3 :=
  bit_array_one_byte_layout 64 (Or.inr rfl) (fun _ => 0xff) ⟨8, 0, 0, 0, 2, false, ⟨0, 1⟩⟩
    1 2 3 0 rfl rfl (by decide) (by decide)
end MlxswItem
